import Mathlib

/-! # reviewdog: the GitHub pull request comment service (`github.go`)

A shallow embedding of `github.go`: the index of already posted comments
(`postedcomments`), comment rendering (`commentBody`), the staging buffer and
`Flash`, which reads the existing review comments, filters the staged comments
against them and posts the rest through an `errgroup`.

Go values are embedded as follows.

* `string` is `String`, `int` is `Int` (no arithmetic is performed on positions).
* A pointer field that may be `nil` (`*int`, `*string`) is an `Option`.
* `map[K]V` is a function `K → Option V`: `none` is an absent key.
* `error` is `Option Error` (`none` is `nil`); a `(value, error)` pair is an `Except`.
* The GitHub client is a state machine over a host state, passed explicitly.
* The goroutines of an `errgroup.Group` run in an order chosen by a scheduler,
  which is an explicit argument.
-/

namespace Reviewdog

/-! ## Data model -/

/-- Go `error` values, as opaque messages. -/
abbrev Error := String

/-- Modelled from the spec: the struct `Comment` is declared outside `github.go`;
these are the four fields that `github.go` reads (`c.Path`, `c.LnumDiff`, `c.Body`,
`c.ToolName`), with the types of the spec's data model. -/
structure Comment where
  Path : String
  LnumDiff : Int
  Body : String
  ToolName : String
deriving DecidableEq, Repr

/-- The fields of `github.PullRequestComment` (go-github) that `github.go` reads or
writes; every one is a pointer there, hence an `Option` here. -/
structure PullRequestComment where
  CommitID : Option String
  Body : Option String
  Path : Option String
  Position : Option Int
deriving DecidableEq, Repr

/-- A Go `map[K]V`: `none` is an absent key. -/
abbrev GoMap (κ ν : Type) := κ → Option ν

/-- The map returned by `make(map[K]V)` (a `nil` map reads the same). -/
def GoMap.empty {κ ν : Type} : GoMap κ ν := fun _ => none

/-- The assignment `m[k] = v`. -/
def GoMap.set {κ ν : Type} [DecidableEq κ] (m : GoMap κ ν) (k : κ) (v : ν) : GoMap κ ν :=
  fun k' => if k' = k then some v else m k'

/-- The type `postedcomments`, `map[string]map[int][]string`: `path` to `position` to
comment `body`s. -/
abbrev postedcomments := GoMap String (GoMap Int (List String))

/-- The read `p[path][pos]` with its `ok` flag: `none` when the path or the position
is absent (indexing an absent path yields a `nil` inner map, which has no key). -/
def postedcomments.lookup (p : postedcomments) (path : String) (pos : Int) :
    Option (List String) :=
  match p path with
  | none => none
  | some inner => inner pos

/-- The assignment `p[path][pos] = bodys`: the inner map found at `path` (a `nil` map
when the path is absent) is updated at `pos`. -/
def postedcomments.assign (p : postedcomments) (path : String) (pos : Int)
    (bodys : List String) : postedcomments :=
  p.set path (((p path).getD GoMap.empty).set pos bodys)

/-! ## Rendering -/

/-- The constant `bodyPrefix`. -/
def bodyPrefix : String :=
  "<sub>reported by [reviewdog](https://github.com/haya14busa/reviewdog) :dog:</sub>"

/-- The function `commentBody`; `fmt.Sprintf("**[%s]** ", s)` is `"**[" ++ s ++ "]** "`. -/
def commentBody (c : Comment) : String :=
  let tool := if c.ToolName ≠ "" then "**[" ++ c.ToolName ++ "]** " else ""
  tool ++ bodyPrefix ++ "\n" ++ c.Body

/-! ## The index of posted comments -/

/-- The loop `for _, body := range bodys` of `IsPosted`, comparing with `target`. -/
def IsPosted.loop (target : String) : List String → Bool
  | [] => false
  | body :: rest => if body = target then true else IsPosted.loop target rest

/-- The method `postedcomments.IsPosted`. -/
def IsPosted (p : postedcomments) (c : Comment) : Bool :=
  match p c.Path with
  | none => false
  | some _ =>
    match p.lookup c.Path c.LnumDiff with
    | none => false
    | some bodys => IsPosted.loop (commentBody c) bodys

/-- The body of the loop `for _, c := range cs` of `setPostedComment`, as a step on
the index `g.postedcs`. -/
def setPostedComment.body (p : postedcomments) (c : PullRequestComment) : postedcomments :=
  match c.Position, c.Path, c.Body with
  | some pos, some path, some body =>
    let p1 := if (p path).isSome then p else p.set path GoMap.empty
    let p2 := if (p1.lookup path pos).isSome then p1 else p1.assign path pos []
    p2.assign path pos ((p2.lookup path pos).getD [] ++ [body])
  | _, _, _ => p

/-- The loop of `setPostedComment` over the comments `cs`, from the index `p`. -/
def setPostedComment.loop (p : postedcomments) (cs : List PullRequestComment) :
    postedcomments :=
  cs.foldl setPostedComment.body p

/-! ## The service, its client and the trace of client calls -/

/-- The struct `GitHubPullRequest`; its field `cli` is the `Client` argument of the
operations below. -/
structure GitHubPullRequest where
  postComments : List Comment
  owner : String
  repo : String
  pr : Int
  sha : String
  postedcs : postedcomments

/-- The two calls of `github.Client` made by the comment service, as transitions of a
hosting service with states `σ`: `PullRequests.ListComments(owner, repo, pr, nil)` and
`PullRequests.CreateComment(owner, repo, pr, comment)`. -/
structure Client (σ : Type) where
  ListComments : σ → String → String → Int → σ × Except Error (List PullRequestComment)
  CreateComment : σ → String → String → Int → PullRequestComment → σ × Option Error

/-- A client call together with the error it returned, as recorded in the trace. -/
inductive Call where
  | ListComments (owner repo : String) (pr : Int) (err : Option Error)
  | CreateComment (owner repo : String) (pr : Int) (comment : PullRequestComment)
      (err : Option Error)
deriving DecidableEq, Repr

/-- The hosting service together with the client calls made so far, oldest first. -/
structure World (σ : Type) where
  host : σ
  trace : List Call

/-- The error of a `(value, error)` result. -/
def errorOf {α : Type} : Except Error α → Option Error
  | Except.error err => some err
  | Except.ok _ => none

/-- The call `cli.PullRequests.ListComments`, recorded in the trace. -/
def Client.listComments {σ : Type} (cli : Client σ) (w : World σ) (owner repo : String)
    (pr : Int) : World σ × Except Error (List PullRequestComment) :=
  match cli.ListComments w.host owner repo pr with
  | (h, r) =>
    ({ host := h, trace := w.trace ++ [Call.ListComments owner repo pr (errorOf r)] }, r)

/-- The call `cli.PullRequests.CreateComment`, recorded in the trace. -/
def Client.createComment {σ : Type} (cli : Client σ) (w : World σ) (owner repo : String)
    (pr : Int) (comment : PullRequestComment) : World σ × Option Error :=
  match cli.CreateComment w.host owner repo pr comment with
  | (h, err) =>
    ({ host := h, trace := w.trace ++ [Call.CreateComment owner repo pr comment err] }, err)

/-- The create-comment requests of a trace, in call order. -/
def creates : List Call → List PullRequestComment
  | [] => []
  | Call.CreateComment _ _ _ comment _ :: rest => comment :: creates rest
  | Call.ListComments _ _ _ _ :: rest => creates rest

/-- The errors returned by the create-comment calls of a trace, in call order. -/
def createErrors : List Call → List (Option Error)
  | [] => []
  | Call.CreateComment _ _ _ _ err :: rest => err :: createErrors rest
  | Call.ListComments _ _ _ _ :: rest => createErrors rest

/-- The number of list reads in a trace. -/
def listReads : List Call → Nat
  | [] => 0
  | Call.ListComments _ _ _ _ :: rest => listReads rest + 1
  | Call.CreateComment _ _ _ _ _ :: rest => listReads rest

/-! ## Staging -/

/-- The constructor `NewGitHubPullReqest`. -/
def NewGitHubPullReqest (owner repo : String) (pr : Int) (sha : String) :
    GitHubPullRequest :=
  { postComments := [], owner := owner, repo := repo, pr := pr, sha := sha,
    postedcs := GoMap.empty }

/-- The method `Post`: the new service state and the returned error. -/
def GitHubPullRequest.Post (g : GitHubPullRequest) (c : Comment) :
    GitHubPullRequest × Option Error :=
  ({ g with postComments := g.postComments ++ [c] }, none)

/-- The method `ListPostComments`. -/
def GitHubPullRequest.ListPostComments (g : GitHubPullRequest) : List Comment :=
  g.postComments

/-- The method `Strip`. -/
def GitHubPullRequest.Strip (_g : GitHubPullRequest) : Int := 1

/-! ## Flash -/

/-- The method `comment`: the list read of the existing review comments. -/
def GitHubPullRequest.comment {σ : Type} (g : GitHubPullRequest) (cli : Client σ)
    (w : World σ) : World σ × Except Error (List PullRequestComment) :=
  match cli.listComments w g.owner g.repo g.pr with
  | (w1, Except.error err) => (w1, Except.error err)
  | (w1, Except.ok comments) => (w1, Except.ok comments)

/-- The method `setPostedComment`: the index is reset, then filled from the list read. -/
def GitHubPullRequest.setPostedComment {σ : Type} (g : GitHubPullRequest)
    (cli : Client σ) (w : World σ) : World σ × GitHubPullRequest × Option Error :=
  let g1 := { g with postedcs := GoMap.empty }
  match g1.comment cli w with
  | (w1, Except.error err) => (w1, g1, some err)
  | (w1, Except.ok cs) =>
    (w1, { g1 with postedcs := setPostedComment.loop g1.postedcs cs }, none)

/-- The request built inside the goroutine of `Flash` for a staged `comment`. -/
def Flash.request (g : GitHubPullRequest) (comment : Comment) : PullRequestComment :=
  { CommitID := some g.sha, Body := some (commentBody comment),
    Path := some comment.Path, Position := some comment.LnumDiff }

/-- The loop of `Flash` over the staged comments: the goroutines handed to `eg.Go`, in
loop order, each given by the request it will send. -/
def Flash.loop (g : GitHubPullRequest) : List Comment → List PullRequestComment
  | [] => []
  | comment :: rest =>
    if IsPosted g.postedcs comment then Flash.loop g rest
    else Flash.request g comment :: Flash.loop g rest

/-- An order chosen by the scheduler: each pick `k` takes the element at index
`k mod length` of what is left; when the picks run out the rest keeps its order. -/
def interleave {α : Type} : List Nat → List α → List α
  | [], l => l
  | _ :: _, [] => []
  | k :: ks, x :: xs =>
    (x :: xs).getD (k % (xs.length + 1)) x ::
      interleave ks ((x :: xs).eraseIdx (k % (xs.length + 1)))

/-- The scheduler of one `Flash`: `run` picks the order in which the goroutines' calls
reach the hosting service, `done` the order in which the goroutines hand their result
to the group. -/
structure Schedule where
  run : List Nat
  done : List Nat

/-- The goroutines of `Flash`, run in the given order: each calls `CreateComment` once
and returns its error. -/
def Flash.goroutines {σ : Type} (cli : Client σ) (g : GitHubPullRequest) :
    World σ → List PullRequestComment → World σ × List (Option Error)
  | w, [] => (w, [])
  | w, prcomment :: rest =>
    match cli.createComment w g.owner g.repo g.pr prcomment with
    | (w1, err) =>
      match Flash.goroutines cli g w1 rest with
      | (w2, errs) => (w2, err :: errs)

/-- The call `eg.Wait()` of `errgroup.Group`, given the results of the goroutines in
the order they were handed to the group: the first non-nil error, `nil` if none. -/
def errgroup.Wait : List (Option Error) → Option Error
  | [] => none
  | some err :: _ => some err
  | none :: rest => errgroup.Wait rest

/-- The method `Flash`: the world and service state after the call and the returned
error. -/
def GitHubPullRequest.Flash {σ : Type} (g : GitHubPullRequest) (cli : Client σ)
    (sch : Schedule) (w : World σ) : World σ × GitHubPullRequest × Option Error :=
  match g.setPostedComment cli w with
  | (w1, g1, some err) => (w1, g1, some err)
  | (w1, g1, none) =>
    match Flash.goroutines cli g1 w1 (interleave sch.run (Flash.loop g1 g1.ListPostComments)) with
    | (w2, errs) => (w2, g1, errgroup.Wait (interleave sch.done errs))

/-- The client calls made by one call of `Flash`: what it added to the trace. -/
def GitHubPullRequest.FlashCalls {σ : Type} (g : GitHubPullRequest) (cli : Client σ)
    (sch : Schedule) (w : World σ) : List Call :=
  (g.Flash cli sch w).1.trace.drop w.trace.length

/-! ## Specification-side definitions and example inputs -/

/-- The bodies, in the order of `cs` and with repetitions, of the remote comments of `cs`
whose position, path and body are all present and whose path is `path` and position is
`pos` (the content that the spec gives to `index[path][pos]`). -/
def bodiesAt (cs : List PullRequestComment) (path : String) (pos : Int) : List String :=
  cs.filterMap fun c =>
    match c.Position, c.Path, c.Body with
    | some n, some q, some body => if q = path ∧ n = pos then some body else none
    | _, _, _ => none

/-- A hosting service without state whose list read always returns `r` and whose
create-comment call returns `e comment`. -/
def fixedClient (r : Except Error (List PullRequestComment))
    (e : PullRequestComment → Option Error) : Client Unit :=
  { ListComments := fun _ _ _ _ => ((), r)
    CreateComment := fun _ _ _ _ comment => ((), e comment) }

/-- Every create-comment call succeeds. -/
def accept (_comment : PullRequestComment) : Option Error := none

/-- Every create-comment call fails, with an error naming the path of the request. -/
def refuse (comment : PullRequestComment) : Option Error :=
  some ("refused " ++ comment.Path.getD "")

/-- The staged comments of the partial-duplicate scenario, with `tool` the tool name of
the second one. -/
def exampleStaged (tool : String) : List Comment :=
  [{ Path := "x.go", LnumDiff := 3, Body := "bug", ToolName := "" },
   { Path := "x.go", LnumDiff := 3, Body := "bug", ToolName := tool },
   { Path := "y.go", LnumDiff := 3, Body := "bug", ToolName := "" }]

/-- The scheduler that runs the goroutines in the order of the loop. -/
def inOrder : Schedule := { run := [], done := [] }

/-- A remote comment with all of its fields present. -/
def remote (path : String) (pos : Int) (body : String) : PullRequestComment :=
  { CommitID := some "c0ffee", Body := some body, Path := some path, Position := some pos }

/-- An example service state: pull request 7 of `o/r` at head `abc`, with the staged
comments `staged`. -/
def exampleService (staged : List Comment) : GitHubPullRequest :=
  { postComments := staged, owner := "o", repo := "r", pr := 7, sha := "abc",
    postedcs := GoMap.empty }

/-- Example remote comments: two complete comments at `x.go`, position 3, around one
without a position, one without a path and one without a body. -/
def exampleRemote : List PullRequestComment :=
  [remote "x.go" 3 "first",
   { CommitID := none, Body := some "first", Path := some "x.go", Position := none },
   { CommitID := none, Body := some "lost", Path := none, Position := some 3 },
   { CommitID := none, Body := none, Path := some "x.go", Position := some 3 },
   remote "x.go" 3 "second"]

/-- The durable hosting service of the idempotence property: its state is the list of
remote comments; the list read returns all of them; a create request either fails, as
decided by `reject` from the state and the request, leaving the state as it is, or
succeeds and adds a remote comment with the commit, body, path and position of the
request. -/
def durableHost (reject : List PullRequestComment → PullRequestComment → Option Error) :
    Client (List PullRequestComment) :=
  { ListComments := fun remotes _ _ _ => (remotes, Except.ok remotes)
    CreateComment := fun remotes _ _ _ comment =>
      match reject remotes comment with
      | some err => (remotes, some err)
      | none => (remotes ++ [comment], none) }

/-- The world before any client call. -/
def World.start {σ : Type} (h : σ) : World σ := { host := h, trace := [] }

/-- A sequence of calls `Post(c1)`, ..., `Post(cn)`, in this order: the state after the
last call and the errors returned, in call order. -/
def GitHubPullRequest.PostAll (g : GitHubPullRequest) :
    List Comment → GitHubPullRequest × List (Option Error)
  | [] => (g, [])
  | c :: rest =>
    match g.Post c with
    | (g1, err) =>
      match GitHubPullRequest.PostAll g1 rest with
      | (g2, errs) => (g2, err :: errs)

/-! ## Diff -/

/-- A `[]byte`. -/
abbrev Bytes := List (Fin 256)

/-- The field of `github.PullRequestBranch` that `Diff` reads, a `*string`. -/
structure PullRequestBranch where
  SHA : Option String
deriving DecidableEq, Repr

/-- The field of `github.PullRequest` that `Diff` reads, a pointer to the base branch. -/
structure PullRequest where
  Base : Option PullRequestBranch
deriving DecidableEq, Repr

/-- The two capabilities that `Diff` consumes, as transitions of an environment with
states `σ`: the metadata read `PullRequests.Get(owner, repo, pr)` of `github.Client`, and
`exec.Command(name, args...).Output()`, which returns the bytes the process wrote to its
standard output together with its error, as the Go pair `([]byte, error)`. -/
structure DiffClient (σ : Type) where
  Get : σ → String → String → Int → σ × Except Error PullRequest
  Output : σ → String → List String → σ × Bytes × Option Error

/-- A call made by `Diff` together with the error it returned, as recorded in the
trace. -/
inductive DiffCall where
  | Get (owner repo : String) (pr : Int) (err : Option Error)
  | Command (name : String) (args : List String) (err : Option Error)
deriving DecidableEq, Repr

/-- The environment of `Diff` together with the calls made so far, oldest first. -/
structure DiffWorld (σ : Type) where
  host : σ
  trace : List DiffCall

/-- What a call of `Diff` does: it returns a `([]byte, error)` pair, or panics on a nil
pointer dereference. -/
inductive DiffResult where
  | returned (bytes : Bytes) (err : Option Error)
  | panicked
deriving DecidableEq, Repr

/-- The call `cli.PullRequests.Get`, recorded in the trace. -/
def DiffClient.get {σ : Type} (env : DiffClient σ) (w : DiffWorld σ) (owner repo : String)
    (pr : Int) : DiffWorld σ × Except Error PullRequest :=
  match env.Get w.host owner repo pr with
  | (h, r) => ({ host := h, trace := w.trace ++ [DiffCall.Get owner repo pr (errorOf r)] }, r)

/-- The call `exec.Command(name, args...).Output()`, recorded in the trace. -/
def DiffClient.output {σ : Type} (env : DiffClient σ) (w : DiffWorld σ) (name : String)
    (args : List String) : DiffWorld σ × Bytes × Option Error :=
  match env.Output w.host name args with
  | (h, bytes, err) =>
    ({ host := h, trace := w.trace ++ [DiffCall.Command name args err] }, bytes, err)

/-- The method `Diff`. The expression `*pr.Base.SHA` panics when `pr.Base` or its `SHA`
is `nil`. -/
def GitHubPullRequest.Diff {σ : Type} (g : GitHubPullRequest) (env : DiffClient σ)
    (w : DiffWorld σ) : DiffWorld σ × DiffResult :=
  match env.get w g.owner g.repo g.pr with
  | (w1, Except.error err) => (w1, DiffResult.returned [] (some err))
  | (w1, Except.ok pr) =>
    match pr.Base with
    | none => (w1, DiffResult.panicked)
    | some base =>
      match base.SHA with
      | none => (w1, DiffResult.panicked)
      | some baseSHA =>
        match env.output w1 "git" ["diff", "--find-renames", baseSHA, g.sha] with
        | (w2, bytes, err) => (w2, DiffResult.returned bytes err)

/-- The commands run in a trace of `Diff`: name and arguments, in call order. -/
def commands : List DiffCall → List (String × List String)
  | [] => []
  | DiffCall.Command name args _ :: rest => (name, args) :: commands rest
  | DiffCall.Get _ _ _ _ :: rest => commands rest

/-- The calls made by one call of `Diff`: what it added to the trace. -/
def GitHubPullRequest.DiffCalls {σ : Type} (g : GitHubPullRequest) (env : DiffClient σ)
    (w : DiffWorld σ) : List DiffCall :=
  (g.Diff env w).1.trace.drop w.trace.length

/-- An environment without state whose metadata read returns `r` and whose commands
return `out name args`. -/
def fixedDiffClient (r : Except Error PullRequest)
    (out : String → List String → Bytes × Option Error) : DiffClient Unit :=
  { Get := fun _ _ _ _ => ((), r)
    Output := fun _ name args => ((), out name args) }

/-- A pull request whose base commit is `sha`. -/
def pullRequestAt (sha : String) : PullRequest := { Base := some { SHA := some sha } }

/-- A `git` that writes the bytes of `diff` and then fails when asked for the diff from
`base0` to `abc`, and writes nothing and succeeds otherwise. -/
def brokenGit (name : String) (args : List String) : Bytes × Option Error :=
  if name = "git" ∧ args = ["diff", "--find-renames", "base0", "abc"] then
    ([100, 105, 102, 102], some "signal: killed")
  else ([], none)

/-- The world of `Diff` before any call. -/
def DiffWorld.start {σ : Type} (h : σ) : DiffWorld σ := { host := h, trace := [] }

/-! ## Rendering: theorems -/

/-- C2 (counterexample): for the comment with tool name `golint` and body `bug` the
rendered body is not `"[golint] "` followed by the frame, a newline and the body: the
code writes the tool marker as `**[golint]** `. -/
theorem commentBody_bracket_counterexample :
    commentBody { Path := "x.go", LnumDiff := 3, Body := "bug", ToolName := "golint" } ≠
      ("[" ++ "golint" ++ "] ") ++ bodyPrefix ++ "\n" ++ "bug" := by
  decide

/-- C2 (amended): the rendered body is the marker, the frame `bodyPrefix`, a newline and
the body, where the marker is `"**[" ++ ToolName ++ "]** "` for a non-empty tool name and
the empty string for an empty one. -/
theorem commentBody_eq (c : Comment) :
    commentBody c =
      (if c.ToolName = "" then "" else "**[" ++ c.ToolName ++ "]** ") ++ bodyPrefix ++ "\n"
        ++ c.Body := by
  unfold commentBody
  by_cases h : c.ToolName = "" <;> simp [h]

/-- C10: two comments with the same tool name and the same body render to the same
string, whatever their paths and positions. -/
theorem commentBody_congr (c1 c2 : Comment) (hTool : c1.ToolName = c2.ToolName)
    (hBody : c1.Body = c2.Body) : commentBody c1 = commentBody c2 := by
  unfold commentBody
  rw [hTool, hBody]

/-- C10 (witness): two comments on different paths and positions. -/
theorem commentBody_congr_witness :
    commentBody { Path := "x.go", LnumDiff := 3, Body := "bug", ToolName := "golint" } =
      commentBody { Path := "y.go", LnumDiff := 7, Body := "bug", ToolName := "golint" } :=
  commentBody_congr _ _ rfl rfl

/-! ## The index: theorems -/

theorem IsPosted.loop_eq_true_iff (target : String) (bodys : List String) :
    IsPosted.loop target bodys = true ↔ target ∈ bodys := by
  induction bodys with
  | nil => simp [IsPosted.loop]
  | cons body rest ih =>
    by_cases h : body = target
    · simp [IsPosted.loop, h]
    · have h2 : ¬ target = body := fun e => h e.symm
      simp [IsPosted.loop, h, h2, ih]

theorem IsPosted_eq_true_iff_lookup (p : postedcomments) (c : Comment) :
    IsPosted p c = true ↔
      ∃ bodys, p.lookup c.Path c.LnumDiff = some bodys ∧ commentBody c ∈ bodys := by
  unfold IsPosted postedcomments.lookup
  cases hp : p c.Path with
  | none => simp
  | some inner =>
    cases hi : inner c.LnumDiff with
    | none => simp [hi]
    | some bodys => simp [hi, IsPosted.loop_eq_true_iff]

/-- C1: `IsPosted p c` is true exactly when `p` has an entry for `c.Path`, that entry has
an entry for `c.LnumDiff`, and the bodies found there contain `commentBody c`; it is
false when the path is absent and when the position is absent under the path. -/
theorem IsPosted_iff (p : postedcomments) (c : Comment) :
    (IsPosted p c = true ↔
      ∃ inner, p c.Path = some inner ∧
        ∃ bodys, inner c.LnumDiff = some bodys ∧ commentBody c ∈ bodys) ∧
    (p c.Path = none → IsPosted p c = false) ∧
    (∀ inner, p c.Path = some inner → inner c.LnumDiff = none → IsPosted p c = false) := by
  refine ⟨?_, ?_, ?_⟩
  · rw [IsPosted_eq_true_iff_lookup]
    unfold postedcomments.lookup
    cases hp : p c.Path with
    | none => simp
    | some inner => simp
  · intro hp
    simp [IsPosted, hp]
  · intro inner hp hi
    simp [IsPosted, postedcomments.lookup, hp, hi]

theorem setPostedComment.body_lookup (p : postedcomments) (c : PullRequestComment)
    (path : String) (pos : Int) :
    (setPostedComment.body p c).lookup path pos =
      match c.Position, c.Path, c.Body with
      | some n, some q, some body =>
        if q = path ∧ n = pos then some ((p.lookup path pos).getD [] ++ [body])
        else p.lookup path pos
      | _, _, _ => p.lookup path pos := by
  unfold setPostedComment.body
  cases hn : c.Position with
  | none => simp
  | some n =>
    cases hq : c.Path with
    | none => simp
    | some q =>
      cases hb : c.Body with
      | none => simp
      | some body =>
        by_cases h1 : path = q
        · subst h1
          by_cases h2 : pos = n
          · subst h2
            cases hp : p path with
            | none =>
              simp [postedcomments.lookup, postedcomments.assign, GoMap.set, GoMap.empty, hp]
            | some inner =>
              cases hi : inner pos <;>
                simp [postedcomments.lookup, postedcomments.assign, GoMap.set, GoMap.empty,
                  hp, hi]
          · have h4 : ¬ n = pos := fun e => h2 e.symm
            cases hp : p path with
            | none =>
              simp [postedcomments.lookup, postedcomments.assign, GoMap.set, GoMap.empty, hp,
                h2, h4]
            | some inner =>
              cases hi : inner n <;>
                simp [postedcomments.lookup, postedcomments.assign, GoMap.set, GoMap.empty,
                  hp, hi, h2, h4]
        · have h3 : ¬ q = path := fun e => h1 e.symm
          cases hp : p q with
          | none =>
            simp [postedcomments.lookup, postedcomments.assign, GoMap.set, GoMap.empty, hp,
              h1, h3]
          | some inner =>
            cases hi : inner n <;>
              simp [postedcomments.lookup, postedcomments.assign, GoMap.set, GoMap.empty,
                hp, hi, h1, h3]

theorem bodiesAt_cons (c : PullRequestComment) (cs : List PullRequestComment)
    (path : String) (pos : Int) :
    bodiesAt (c :: cs) path pos =
      match c.Position, c.Path, c.Body with
      | some n, some q, some body =>
        if q = path ∧ n = pos then body :: bodiesAt cs path pos else bodiesAt cs path pos
      | _, _, _ => bodiesAt cs path pos := by
  unfold bodiesAt
  cases hn : c.Position with
  | none => simp [List.filterMap_cons, hn]
  | some n =>
    cases hq : c.Path with
    | none => simp [List.filterMap_cons, hn, hq]
    | some q =>
      cases hb : c.Body with
      | none => simp [List.filterMap_cons, hn, hq, hb]
      | some body =>
        by_cases h : q = path ∧ n = pos
        · simp [List.filterMap_cons, hn, hq, hb, h]
        · simp only [List.filterMap_cons, hn, hq, hb, if_neg h]

theorem setPostedComment.loop_lookup (cs : List PullRequestComment) :
    ∀ (p : postedcomments) (path : String) (pos : Int),
      (setPostedComment.loop p cs).lookup path pos =
        if bodiesAt cs path pos = [] then p.lookup path pos
        else some ((p.lookup path pos).getD [] ++ bodiesAt cs path pos) := by
  induction cs with
  | nil => intro p path pos; simp [setPostedComment.loop, bodiesAt]
  | cons c cs ih =>
    intro p path pos
    have hstep : setPostedComment.loop p (c :: cs) =
        setPostedComment.loop (setPostedComment.body p c) cs := by
      simp [setPostedComment.loop]
    rw [hstep, ih, setPostedComment.body_lookup, bodiesAt_cons]
    cases hn : c.Position with
    | none => simp
    | some n =>
      cases hq : c.Path with
      | none => simp
      | some q =>
        cases hb : c.Body with
        | none => simp
        | some body =>
          by_cases h : q = path ∧ n = pos
          · by_cases he : bodiesAt cs path pos = [] <;> simp [h, he]
          · simp only [if_neg h]

theorem lookup_empty (path : String) (pos : Int) :
    postedcomments.lookup GoMap.empty path pos = none := rfl

theorem setPostedComment.loop_empty_lookup (cs : List PullRequestComment) (path : String)
    (pos : Int) :
    (setPostedComment.loop GoMap.empty cs).lookup path pos =
      if bodiesAt cs path pos = [] then none else some (bodiesAt cs path pos) := by
  rw [setPostedComment.loop_lookup, lookup_empty]
  simp

/-! ## The scheduler and the goroutines: lemmas -/

theorem getD_cons_eraseIdx_perm {α : Type} (l : List α) :
    ∀ (i : Nat) (d : α), i < l.length → List.Perm (l.getD i d :: l.eraseIdx i) l := by
  induction l with
  | nil => intro i d h; simp at h
  | cons x xs ih =>
    intro i d h
    cases i with
    | zero => simp
    | succ j =>
      have hj : j < xs.length := by simpa using h
      have h1 := ih j d hj
      simp only [List.getD_cons_succ, List.eraseIdx_cons_succ]
      exact (List.Perm.swap x (xs.getD j d) (xs.eraseIdx j)).trans (List.Perm.cons x h1)

theorem interleave_nil {α : Type} (ks : List Nat) : interleave ks ([] : List α) = [] := by
  cases ks <;> rfl

theorem interleave_perm {α : Type} (ks : List Nat) :
    ∀ l : List α, List.Perm (interleave ks l) l := by
  induction ks with
  | nil => intro l; simp [interleave]
  | cons k ks ih =>
    intro l
    cases l with
    | nil => simp [interleave]
    | cons x xs =>
      simp only [interleave]
      have hlt : k % (xs.length + 1) < (x :: xs).length := by
        simpa using Nat.mod_lt k (Nat.succ_pos xs.length)
      exact (List.Perm.cons _ (ih _)).trans (getD_cons_eraseIdx_perm (x :: xs) _ x hlt)

/-- Every order of the goroutines is chosen by some list of picks. -/
theorem interleave_surjective {α : Type} (l2 : List α) :
    ∀ l : List α, List.Perm l2 l → ∃ ks, interleave ks l = l2 := by
  induction l2 with
  | nil =>
    intro l h
    exact ⟨[], by simpa [interleave] using h.symm.eq_nil⟩
  | cons a t ih =>
    intro l h
    have ha : a ∈ l := h.subset (List.mem_cons_self a t)
    obtain ⟨i, hi, hget⟩ := List.getElem_of_mem ha
    cases l with
    | nil => simp at ha
    | cons x xs =>
      have hD : (x :: xs).getD i x = a := by
        rw [List.getD_eq_getElem _ _ hi]; exact hget
      have hp := getD_cons_eraseIdx_perm (x :: xs) i x hi
      rw [hD] at hp
      have ht : List.Perm t ((x :: xs).eraseIdx i) := (h.trans hp.symm).cons_inv
      obtain ⟨ks, hks⟩ := ih _ ht
      have hmod : i % (xs.length + 1) = i := Nat.mod_eq_of_lt (by simpa using hi)
      exact ⟨i :: ks, by simp only [interleave, hmod, hD, hks]⟩

theorem creates_append (a b : List Call) : creates (a ++ b) = creates a ++ creates b := by
  induction a with
  | nil => rfl
  | cons c a ih => cases c <;> simp [creates, ih]

theorem createErrors_append (a b : List Call) :
    createErrors (a ++ b) = createErrors a ++ createErrors b := by
  induction a with
  | nil => rfl
  | cons c a ih => cases c <;> simp [createErrors, ih]

theorem listReads_append (a b : List Call) : listReads (a ++ b) = listReads a + listReads b := by
  induction a with
  | nil => simp [listReads]
  | cons c a ih =>
    cases c with
    | ListComments owner repo pr err => simp [listReads, ih]; omega
    | CreateComment owner repo pr comment err => simp [listReads, ih]

/-- The goroutines add one `CreateComment` call per request to the trace, in the order
they are run, each with the error it returned. -/
theorem Flash.goroutines_trace {σ : Type} (cli : Client σ) (g : GitHubPullRequest)
    (reqs : List PullRequestComment) :
    ∀ w : World σ,
      (Flash.goroutines cli g w reqs).2.length = reqs.length ∧
      (Flash.goroutines cli g w reqs).1.trace =
        w.trace ++ List.zipWith (Call.CreateComment g.owner g.repo g.pr) reqs
          (Flash.goroutines cli g w reqs).2 := by
  induction reqs with
  | nil => intro w; simp [Flash.goroutines]
  | cons r rest ih =>
    intro w
    have h := ih (cli.createComment w g.owner g.repo g.pr r).1
    simp only [Flash.goroutines, List.length_cons, List.zipWith_cons_cons]
    refine ⟨by rw [h.1], ?_⟩
    rw [h.2]
    simp [Client.createComment]

theorem creates_zipWith (owner repo : String) (pr : Int) (reqs : List PullRequestComment) :
    ∀ errs : List (Option Error), errs.length = reqs.length →
      creates (List.zipWith (Call.CreateComment owner repo pr) reqs errs) = reqs ∧
      createErrors (List.zipWith (Call.CreateComment owner repo pr) reqs errs) = errs ∧
      listReads (List.zipWith (Call.CreateComment owner repo pr) reqs errs) = 0 := by
  induction reqs with
  | nil => intro errs h; cases errs <;> simp_all [creates, createErrors, listReads]
  | cons r rest ih =>
    intro errs h
    cases errs with
    | nil => simp at h
    | cons e es =>
      have h2 := ih es (by simpa using h)
      simp [creates, createErrors, listReads, h2.1, h2.2.1, h2.2.2]

theorem Flash.loop_eq_filter_map (g : GitHubPullRequest) (staged : List Comment) :
    Flash.loop g staged =
      (staged.filter fun c => !IsPosted g.postedcs c).map (Flash.request g) := by
  induction staged with
  | nil => rfl
  | cons c rest ih =>
    by_cases h : IsPosted g.postedcs c = true
    · simp [Flash.loop, h, ih]
    · simp [Flash.loop, h, ih]

theorem errgroup.Wait_eq_none_iff (l : List (Option Error)) :
    errgroup.Wait l = none ↔ ∀ e ∈ l, e = none := by
  induction l with
  | nil => simp [errgroup.Wait]
  | cons e rest ih =>
    cases e with
    | none => simp [errgroup.Wait, ih]
    | some err => simp [errgroup.Wait]

theorem errgroup.Wait_mem (l : List (Option Error)) (err : Error)
    (h : errgroup.Wait l = some err) : some err ∈ l := by
  induction l with
  | nil => simp [errgroup.Wait] at h
  | cons e rest ih =>
    cases e with
    | none => simp only [errgroup.Wait] at h; exact List.mem_cons_of_mem _ (ih h)
    | some err2 =>
      simp only [errgroup.Wait, Option.some.injEq] at h
      simp [h]

/-! ## setPostedComment and Flash: unfolding under the result of the list read -/

theorem setPostedComment_of_ok {σ : Type} (g : GitHubPullRequest) (cli : Client σ)
    (w : World σ) (cs : List PullRequestComment)
    (hread : (cli.ListComments w.host g.owner g.repo g.pr).2 = Except.ok cs) :
    g.setPostedComment cli w =
      ({ host := (cli.ListComments w.host g.owner g.repo g.pr).1,
         trace := w.trace ++ [Call.ListComments g.owner g.repo g.pr none] },
       { g with postedcs := setPostedComment.loop GoMap.empty cs }, none) := by
  rcases hl : cli.ListComments w.host g.owner g.repo g.pr with ⟨h, r⟩
  rw [hl] at hread
  simp only at hread
  subst hread
  simp [GitHubPullRequest.setPostedComment, GitHubPullRequest.comment, Client.listComments,
    hl, errorOf]

theorem setPostedComment_of_error {σ : Type} (g : GitHubPullRequest) (cli : Client σ)
    (w : World σ) (e : Error)
    (hread : (cli.ListComments w.host g.owner g.repo g.pr).2 = Except.error e) :
    g.setPostedComment cli w =
      ({ host := (cli.ListComments w.host g.owner g.repo g.pr).1,
         trace := w.trace ++ [Call.ListComments g.owner g.repo g.pr (some e)] },
       { g with postedcs := GoMap.empty }, some e) := by
  rcases hl : cli.ListComments w.host g.owner g.repo g.pr with ⟨h, r⟩
  rw [hl] at hread
  simp only at hread
  subst hread
  simp [GitHubPullRequest.setPostedComment, GitHubPullRequest.comment, Client.listComments,
    hl, errorOf]

theorem Flash_of_error {σ : Type} (g : GitHubPullRequest) (cli : Client σ) (sch : Schedule)
    (w : World σ) (e : Error)
    (hread : (cli.ListComments w.host g.owner g.repo g.pr).2 = Except.error e) :
    (g.Flash cli sch w).2.2 = some e ∧
      (g.Flash cli sch w).2.1 = { g with postedcs := GoMap.empty } ∧
      g.FlashCalls cli sch w = [Call.ListComments g.owner g.repo g.pr (some e)] := by
  simp [GitHubPullRequest.FlashCalls, GitHubPullRequest.Flash,
    setPostedComment_of_error g cli w e hread]

/-- What one `Flash` does when the list read returns `cs`: the index is built from `cs`,
the requests chosen by the loop are sent in the order `sch.run`, and the error is the
first one in the order `sch.done`. -/
theorem Flash_of_ok {σ : Type} (g : GitHubPullRequest) (cli : Client σ) (sch : Schedule)
    (w : World σ) (cs : List PullRequestComment)
    (hread : (cli.ListComments w.host g.owner g.repo g.pr).2 = Except.ok cs) :
    ∃ errs : List (Option Error),
      errs.length =
        (interleave sch.run (Flash.loop { g with postedcs := setPostedComment.loop GoMap.empty cs }
          g.postComments)).length ∧
      (g.Flash cli sch w).2.1 = { g with postedcs := setPostedComment.loop GoMap.empty cs } ∧
      (g.Flash cli sch w).2.2 = errgroup.Wait (interleave sch.done errs) ∧
      g.FlashCalls cli sch w =
        Call.ListComments g.owner g.repo g.pr none ::
          List.zipWith (Call.CreateComment g.owner g.repo g.pr)
            (interleave sch.run
              (Flash.loop { g with postedcs := setPostedComment.loop GoMap.empty cs }
                g.postComments)) errs := by
  have hg := Flash.goroutines_trace cli { g with postedcs := setPostedComment.loop GoMap.empty cs }
    (interleave sch.run (Flash.loop { g with postedcs := setPostedComment.loop GoMap.empty cs }
      g.postComments))
    { host := (cli.ListComments w.host g.owner g.repo g.pr).1,
      trace := w.trace ++ [Call.ListComments g.owner g.repo g.pr none] }
  refine ⟨_, hg.1, ?_, ?_, ?_⟩
  · simp [GitHubPullRequest.Flash, setPostedComment_of_ok g cli w cs hread]
  · simp [GitHubPullRequest.Flash, setPostedComment_of_ok g cli w cs hread,
      GitHubPullRequest.ListPostComments]
  · simp only [GitHubPullRequest.FlashCalls, GitHubPullRequest.Flash,
      setPostedComment_of_ok g cli w cs hread, GitHubPullRequest.ListPostComments]
    rw [hg.2]
    simp

/-! ## The index built by setPostedComment -/

theorem setPostedComment.body_of_incomplete (p : postedcomments) (c : PullRequestComment)
    (h : c.Position = none ∨ c.Path = none ∨ c.Body = none) :
    setPostedComment.body p c = p := by
  unfold setPostedComment.body
  rcases h with h | h | h
  · simp [h]
  · cases hn : c.Position <;> simp [h]
  · cases hn : c.Position <;> cases hq : c.Path <;> simp [h]

theorem setPostedComment.loop_filter (keep : PullRequestComment → Bool)
    (hkeep : ∀ c, keep c = false → c.Position = none ∨ c.Path = none ∨ c.Body = none)
    (cs : List PullRequestComment) :
    ∀ p : postedcomments,
      setPostedComment.loop p (cs.filter keep) = setPostedComment.loop p cs := by
  induction cs with
  | nil => intro p; rfl
  | cons c cs ih =>
    intro p
    cases hk : keep c with
    | true =>
      simp only [List.filter_cons, hk, if_true]
      simp only [setPostedComment.loop, List.foldl_cons]
      exact ih _
    | false =>
      simp only [List.filter_cons, hk, Bool.false_eq_true, if_false]
      rw [ih p]
      simp [setPostedComment.loop, List.foldl_cons,
        setPostedComment.body_of_incomplete p c (hkeep c hk)]

/-- C3: when the list read returns `cs`, `setPostedComment` returns no error and leaves
an index in which `index[path][pos]` is the sequence of bodies, in the order of `cs` and
with repetitions, of the remote comments that have a position, a path and a body and lie
at `(path, pos)`, the key being absent when there is none; the index is the one built
from the complete comments of `cs` alone. -/
theorem setPostedComment_index {σ : Type} (g : GitHubPullRequest) (cli : Client σ)
    (w : World σ) (cs : List PullRequestComment)
    (hread : (cli.ListComments w.host g.owner g.repo g.pr).2 = Except.ok cs)
    (path : String) (pos : Int) :
    (g.setPostedComment cli w).2.2 = none ∧
    (g.setPostedComment cli w).2.1.postedcs.lookup path pos =
      (if bodiesAt cs path pos = [] then none else some (bodiesAt cs path pos)) ∧
    (g.setPostedComment cli w).2.1.postedcs =
      setPostedComment.loop GoMap.empty
        (cs.filter fun c => c.Position.isSome && c.Path.isSome && c.Body.isSome) := by
  rw [setPostedComment_of_ok g cli w cs hread]
  refine ⟨rfl, setPostedComment.loop_empty_lookup cs path pos, ?_⟩
  symm
  apply setPostedComment.loop_filter
  intro c hc
  cases hn : c.Position <;> cases hq : c.Path <;> cases hb : c.Body <;> simp_all

/-- C3 (witness): among five remote comments, the two complete ones at `x.go`, position
3, are indexed in order; the three incomplete ones are not. -/
theorem setPostedComment_index_witness :
    (((exampleService []).setPostedComment (fixedClient (Except.ok exampleRemote) accept)
        (World.start ())).2.1.postedcs.lookup "x.go" 3 = some ["first", "second"]) ∧
    (((exampleService []).setPostedComment (fixedClient (Except.ok exampleRemote) accept)
        (World.start ())).2.1.postedcs.lookup "x.go" 4 = none) := by
  have h3 := (setPostedComment_index (exampleService [])
    (fixedClient (Except.ok exampleRemote) accept) (World.start ()) exampleRemote rfl "x.go" 3).2.1
  have h4 := (setPostedComment_index (exampleService [])
    (fixedClient (Except.ok exampleRemote) accept) (World.start ()) exampleRemote rfl "x.go" 4).2.1
  refine ⟨h3.trans (by decide), h4.trans (by decide)⟩

/-! ## Flash: the requests it issues and the error it returns -/

theorem IsPosted_congr (p : postedcomments) (c1 c2 : Comment) (hPath : c1.Path = c2.Path)
    (hPos : c1.LnumDiff = c2.LnumDiff) (hBody : commentBody c1 = commentBody c2) :
    IsPosted p c1 = IsPosted p c2 := by
  unfold IsPosted
  rw [hPath, hPos, hBody]

theorem Flash_creates_perm {σ : Type} (g : GitHubPullRequest) (cli : Client σ)
    (sch : Schedule) (w : World σ) (cs : List PullRequestComment)
    (hread : (cli.ListComments w.host g.owner g.repo g.pr).2 = Except.ok cs) :
    List.Perm (creates (g.FlashCalls cli sch w))
      ((g.postComments.filter fun c => !IsPosted (setPostedComment.loop GoMap.empty cs) c).map
        (Flash.request g)) := by
  obtain ⟨errs, hlen, _, _, hcalls⟩ := Flash_of_ok g cli sch w cs hread
  rw [hcalls]
  simp only [creates]
  rw [(creates_zipWith g.owner g.repo g.pr _ errs hlen).1]
  refine (interleave_perm _ _).trans ?_
  rw [Flash.loop_eq_filter_map]
  exact List.Perm.refl _

/-- C4: when the list read succeeds, the create-comment requests of one `Flash` are, up
to order and with multiplicity, one request per staged comment that `IsPosted` rejects
on the index built in this call, with commit the head SHA, body `commentBody c`, path
`c.Path` and position `c.LnumDiff`; a staged comment that `IsPosted` accepts has no
request. -/
theorem Flash_creates {σ : Type} (g : GitHubPullRequest) (cli : Client σ) (sch : Schedule)
    (w : World σ) (cs : List PullRequestComment)
    (hread : (cli.ListComments w.host g.owner g.repo g.pr).2 = Except.ok cs) :
    (g.Flash cli sch w).2.1.postedcs = setPostedComment.loop GoMap.empty cs ∧
    List.Perm (creates (g.FlashCalls cli sch w))
      ((g.ListPostComments.filter fun c => !IsPosted (g.Flash cli sch w).2.1.postedcs c).map
        fun c => { CommitID := some g.sha, Body := some (commentBody c), Path := some c.Path,
                   Position := some c.LnumDiff }) ∧
    ∀ c ∈ g.ListPostComments, IsPosted (g.Flash cli sch w).2.1.postedcs c = true →
      ({ CommitID := some g.sha, Body := some (commentBody c), Path := some c.Path,
         Position := some c.LnumDiff } : PullRequestComment) ∉
        creates (g.FlashCalls cli sch w) := by
  obtain ⟨errs, _, hg, _, _⟩ := Flash_of_ok g cli sch w cs hread
  have hperm := Flash_creates_perm g cli sch w cs hread
  rw [hg]
  refine ⟨rfl, hperm, ?_⟩
  intro c _ hposted hmem
  have hmem2 := hperm.subset hmem
  simp only [List.mem_map, List.mem_filter, Flash.request] at hmem2
  obtain ⟨c2, ⟨_, hnot⟩, heq⟩ := hmem2
  simp only [PullRequestComment.mk.injEq, Option.some.injEq, true_and] at heq
  have h := IsPosted_congr (setPostedComment.loop GoMap.empty cs) c2 c heq.2.1 heq.2.2 heq.1
  simp only [] at hposted
  rw [h, hposted] at hnot
  simp at hnot

/-- C5: when the list read fails with `e`, `Flash` returns `e` and issues no
create-comment request. -/
theorem Flash_read_error {σ : Type} (g : GitHubPullRequest) (cli : Client σ)
    (sch : Schedule) (w : World σ) (e : Error)
    (hread : (cli.ListComments w.host g.owner g.repo g.pr).2 = Except.error e) :
    (g.Flash cli sch w).2.2 = some e ∧ creates (g.FlashCalls cli sch w) = [] := by
  obtain ⟨herr, _, hcalls⟩ := Flash_of_error g cli sch w e hread
  rw [herr, hcalls]
  exact ⟨rfl, rfl⟩

/-- C4 (witness): with `(x.go, 3, frame and "bug")` already remote and three staged
comments, the second with tool name `golint`, the requests are those of the second and
the third. -/
theorem Flash_creates_witness :
    List.Perm
      (creates ((exampleService (exampleStaged "golint")).FlashCalls
        (fixedClient (Except.ok [remote "x.go" 3 (bodyPrefix ++ "\nbug")]) accept) inOrder
        (World.start ())))
      [{ CommitID := some "abc", Body := some ("**[golint]** " ++ bodyPrefix ++ "\nbug"),
         Path := some "x.go", Position := some 3 },
       { CommitID := some "abc", Body := some (bodyPrefix ++ "\nbug"),
         Path := some "y.go", Position := some 3 }] :=
  (Flash_creates (exampleService (exampleStaged "golint"))
    (fixedClient (Except.ok [remote "x.go" 3 (bodyPrefix ++ "\nbug")]) accept) inOrder
    (World.start ()) [remote "x.go" 3 (bodyPrefix ++ "\nbug")] rfl).2.1.trans
    (List.Perm.of_eq (by decide))

/-- C5 (witness): a list read failing with `boom`, three comments staged. -/
theorem Flash_read_error_witness :
    ((exampleService (exampleStaged "")).Flash (fixedClient (Except.error "boom") accept)
        inOrder (World.start ())).2.2 = some "boom" ∧
    creates ((exampleService (exampleStaged "")).FlashCalls
        (fixedClient (Except.error "boom") accept) inOrder (World.start ())) = [] :=
  Flash_read_error (exampleService (exampleStaged ""))
    (fixedClient (Except.error "boom") accept) inOrder (World.start ()) "boom" rfl

/-- C7 (counterexample): with nothing staged and a list read failing with `boom`,
`Flash` returns the error `boom`: it does not succeed. -/
theorem Flash_empty_staging_read_error :
    (exampleService []).ListPostComments = [] ∧
    ((exampleService []).Flash (fixedClient (Except.error "boom") accept) inOrder
        (World.start ())).2.2 = some "boom" := by
  decide

/-- C7 (amended): with nothing staged, `Flash` issues no create-comment request, performs
exactly one list read and returns exactly the error of that read, hence no error when
the read succeeds; the index is then the one built from the comments read. -/
theorem Flash_empty_staging {σ : Type} (g : GitHubPullRequest) (cli : Client σ)
    (sch : Schedule) (w : World σ) (hempty : g.ListPostComments = []) :
    creates (g.FlashCalls cli sch w) = [] ∧
    listReads (g.FlashCalls cli sch w) = 1 ∧
    (g.Flash cli sch w).2.2 = errorOf (cli.ListComments w.host g.owner g.repo g.pr).2 ∧
    ∀ cs, (cli.ListComments w.host g.owner g.repo g.pr).2 = Except.ok cs →
      (g.Flash cli sch w).2.2 = none ∧
      (g.Flash cli sch w).2.1.postedcs = setPostedComment.loop GoMap.empty cs := by
  have hstaged : g.postComments = [] := hempty
  have hok : ∀ cs, (cli.ListComments w.host g.owner g.repo g.pr).2 = Except.ok cs →
      creates (g.FlashCalls cli sch w) = [] ∧ listReads (g.FlashCalls cli sch w) = 1 ∧
      (g.Flash cli sch w).2.2 = none ∧
      (g.Flash cli sch w).2.1.postedcs = setPostedComment.loop GoMap.empty cs := by
    intro cs hread
    obtain ⟨errs, hlen, hg, herr, hcalls⟩ := Flash_of_ok g cli sch w cs hread
    rw [hstaged] at hlen hcalls
    have hnil : errs = [] := by
      simpa [Flash.loop, interleave_nil] using hlen
    subst hnil
    rw [hg, herr, hcalls]
    simp [Flash.loop, interleave_nil, creates, listReads, errgroup.Wait]
  cases hr : (cli.ListComments w.host g.owner g.repo g.pr).2 with
  | error e =>
    obtain ⟨herr, _, hcalls⟩ := Flash_of_error g cli sch w e hr
    rw [herr, hcalls]
    refine ⟨rfl, rfl, rfl, ?_⟩
    intro cs h
    cases h
  | ok cs =>
    obtain ⟨h1, h2, h3, h4⟩ := hok cs hr
    refine ⟨h1, h2, h3.trans rfl, ?_⟩
    intro cs2 h
    cases h
    exact ⟨h3, h4⟩

/-- C7 (witness): nothing staged, five remote comments. -/
theorem Flash_empty_staging_witness :
    ((exampleService []).Flash (fixedClient (Except.ok exampleRemote) refuse) inOrder
        (World.start ())).2.2 = none ∧
    listReads ((exampleService []).FlashCalls (fixedClient (Except.ok exampleRemote) refuse)
        inOrder (World.start ())) = 1 :=
  have h := Flash_empty_staging (exampleService [])
    (fixedClient (Except.ok exampleRemote) refuse) inOrder (World.start ()) rfl
  ⟨(h.2.2.2 exampleRemote rfl).1, h.2.1⟩

/-- C8: when the list read succeeds, `Flash` returns no error exactly when every
create-comment call it made returned no error; an error it returns is the error of one
of its create-comment calls, namely the first in the order the goroutines handed their
results to the group; with no request dispatched, as when every staged comment is
already posted, it returns no error. -/
theorem Flash_error_iff {σ : Type} (g : GitHubPullRequest) (cli : Client σ)
    (sch : Schedule) (w : World σ) (cs : List PullRequestComment)
    (hread : (cli.ListComments w.host g.owner g.repo g.pr).2 = Except.ok cs) :
    ((g.Flash cli sch w).2.2 = none ↔
      ∀ e ∈ createErrors (g.FlashCalls cli sch w), e = none) ∧
    (∀ err, (g.Flash cli sch w).2.2 = some err →
      some err ∈ createErrors (g.FlashCalls cli sch w)) ∧
    (g.Flash cli sch w).2.2 =
      errgroup.Wait (interleave sch.done (createErrors (g.FlashCalls cli sch w))) ∧
    (createErrors (g.FlashCalls cli sch w)).length = (creates (g.FlashCalls cli sch w)).length ∧
    (creates (g.FlashCalls cli sch w) = [] → (g.Flash cli sch w).2.2 = none) ∧
    ((∀ c ∈ g.ListPostComments, IsPosted (g.Flash cli sch w).2.1.postedcs c = true) →
      creates (g.FlashCalls cli sch w) = []) := by
  obtain ⟨errs, hlen, hg, herr, hcalls⟩ := Flash_of_ok g cli sch w cs hread
  obtain ⟨hc, he, _⟩ := creates_zipWith g.owner g.repo g.pr _ errs hlen
  have hce : createErrors (g.FlashCalls cli sch w) = errs := by
    rw [hcalls]; simpa [createErrors] using he
  have hcr : creates (g.FlashCalls cli sch w) =
      interleave sch.run
        (Flash.loop { g with postedcs := setPostedComment.loop GoMap.empty cs }
          g.postComments) := by
    rw [hcalls]; simpa [creates] using hc
  have hmem : ∀ e, e ∈ interleave sch.done errs ↔ e ∈ errs :=
    fun e => (interleave_perm sch.done errs).mem_iff
  rw [hce, hcr, herr, hg]
  refine ⟨?_, ?_, rfl, hlen, ?_, ?_⟩
  · rw [errgroup.Wait_eq_none_iff]
    exact ⟨fun h e he2 => h e ((hmem e).2 he2), fun h e he2 => h e ((hmem e).1 he2)⟩
  · intro err h
    exact (hmem _).1 (errgroup.Wait_mem _ err h)
  · intro hnil
    rw [hnil] at hlen
    have : errs = [] := by simpa using hlen
    rw [this, interleave_nil]
    rfl
  · intro hall
    have hloop : Flash.loop { g with postedcs := setPostedComment.loop GoMap.empty cs }
        g.postComments = [] := by
      rw [Flash.loop_eq_filter_map]
      simp only [List.map_eq_nil_iff, List.filter_eq_nil_iff]
      intro c hc2
      simpa using hall c hc2
    rw [hloop, interleave_nil]

/-- C8 (witness): every create request is refused with an error naming its path; the
scheduler hands the result of the request for `y.go` to the group first, and `Flash`
returns that error, which is one of the errors of its create-comment calls. -/
theorem Flash_error_iff_witness :
    ((exampleService (exampleStaged "")).Flash (fixedClient (Except.ok []) refuse)
        { run := [], done := [2] } (World.start ())).2.2 = some "refused y.go" ∧
    some "refused y.go" ∈
      createErrors ((exampleService (exampleStaged "")).FlashCalls
        (fixedClient (Except.ok []) refuse) { run := [], done := [2] } (World.start ())) :=
  ⟨by decide,
   (Flash_error_iff (exampleService (exampleStaged "")) (fixedClient (Except.ok []) refuse)
      { run := [], done := [2] } (World.start ()) [] rfl).2.1 "refused y.go" (by decide)⟩

/-! ## Dedup against the remote comments -/

theorem mem_bodiesAt (cs : List PullRequestComment) (path : String) (pos : Int)
    (body : String) :
    body ∈ bodiesAt cs path pos ↔
      ∃ r ∈ cs, r.Position = some pos ∧ r.Path = some path ∧ r.Body = some body := by
  induction cs with
  | nil => simp [bodiesAt]
  | cons c cs ih =>
    rw [bodiesAt_cons]
    cases hn : c.Position with
    | none => simp [ih, hn]
    | some n =>
      cases hq : c.Path with
      | none => simp [ih, hn, hq]
      | some q =>
        cases hb : c.Body with
        | none => simp [ih, hn, hq, hb]
        | some b =>
          by_cases h : q = path ∧ n = pos
          · obtain ⟨h1, h2⟩ := h
            subst h1 h2
            simp [ih, hn, hq, hb]
            constructor
            · rintro (h | h)
              · exact Or.inl h.symm
              · exact Or.inr h
            · rintro (h | h)
              · exact Or.inl h.symm
              · exact Or.inr h
          · simp only [if_neg h, ih, List.mem_cons, exists_eq_or_imp, hn, hq, hb,
              Option.some.injEq]
            constructor
            · intro h2; exact Or.inr h2
            · rintro (⟨h1, h2, _⟩ | h2)
              · exact absurd ⟨h2, h1⟩ h
              · exact h2

/-- On the index built from `cs`, a comment is posted exactly when some remote comment
of `cs` has its position, its path and its rendered body. -/
theorem IsPosted_loop_iff (cs : List PullRequestComment) (c : Comment) :
    IsPosted (setPostedComment.loop GoMap.empty cs) c = true ↔
      ∃ r ∈ cs, r.Position = some c.LnumDiff ∧ r.Path = some c.Path ∧
        r.Body = some (commentBody c) := by
  rw [IsPosted_eq_true_iff_lookup, setPostedComment.loop_empty_lookup, ← mem_bodiesAt]
  by_cases h : bodiesAt cs c.Path c.LnumDiff = []
  · simp [h]
  · simp [h]

/-- C9: the index built from `cs` is the index built from `cs` without its position-less
comments, so `IsPosted` answers the same on both; and when every comment of `cs` lacks a
position, `IsPosted` is false for every comment. -/
theorem IsPosted_ignores_positionless (cs : List PullRequestComment) (c : Comment) :
    setPostedComment.loop GoMap.empty cs =
      setPostedComment.loop GoMap.empty (cs.filter fun r => r.Position.isSome) ∧
    IsPosted (setPostedComment.loop GoMap.empty cs) c =
      IsPosted (setPostedComment.loop GoMap.empty (cs.filter fun r => r.Position.isSome)) c ∧
    ((∀ r ∈ cs, r.Position = none) →
      IsPosted (setPostedComment.loop GoMap.empty cs) c = false) := by
  have hfilter : setPostedComment.loop GoMap.empty (cs.filter fun r => r.Position.isSome) =
      setPostedComment.loop GoMap.empty cs := by
    apply setPostedComment.loop_filter
    intro r hr
    cases hn : r.Position with
    | none => exact Or.inl rfl
    | some n => simp [hn] at hr
  refine ⟨hfilter.symm, by rw [hfilter], ?_⟩
  intro hall
  have hnil : (cs.filter fun r => r.Position.isSome) = [] := by
    rw [List.filter_eq_nil_iff]
    intro r hr
    simp [hall r hr]
  rw [← hfilter, hnil]
  rfl

/-- C9 (witness): a remote comment without a position whose path and body are those of
the staged comment does not make it posted. -/
theorem IsPosted_ignores_positionless_witness :
    IsPosted
      (setPostedComment.loop GoMap.empty
        [{ CommitID := none, Body := some (bodyPrefix ++ "\nbug"), Path := some "x.go",
           Position := none }])
      { Path := "x.go", LnumDiff := 3, Body := "bug", ToolName := "" } = false :=
  (IsPosted_ignores_positionless
    [{ CommitID := none, Body := some (bodyPrefix ++ "\nbug"), Path := some "x.go",
       Position := none }]
    { Path := "x.go", LnumDiff := 3, Body := "bug", ToolName := "" }).2.2 (by decide)

/-! ## Idempotence against a durable hosting service -/

theorem Flash_eq_of_ok {σ : Type} (g : GitHubPullRequest) (cli : Client σ) (sch : Schedule)
    (w : World σ) (cs : List PullRequestComment)
    (hread : (cli.ListComments w.host g.owner g.repo g.pr).2 = Except.ok cs) :
    g.Flash cli sch w =
      ((Flash.goroutines cli { g with postedcs := setPostedComment.loop GoMap.empty cs }
          { host := (cli.ListComments w.host g.owner g.repo g.pr).1,
            trace := w.trace ++ [Call.ListComments g.owner g.repo g.pr none] }
          (interleave sch.run
            (Flash.loop { g with postedcs := setPostedComment.loop GoMap.empty cs }
              g.postComments))).1,
       { g with postedcs := setPostedComment.loop GoMap.empty cs },
       errgroup.Wait (interleave sch.done
        (Flash.goroutines cli { g with postedcs := setPostedComment.loop GoMap.empty cs }
          { host := (cli.ListComments w.host g.owner g.repo g.pr).1,
            trace := w.trace ++ [Call.ListComments g.owner g.repo g.pr none] }
          (interleave sch.run
            (Flash.loop { g with postedcs := setPostedComment.loop GoMap.empty cs }
              g.postComments))).2)) := by
  simp [GitHubPullRequest.Flash, setPostedComment_of_ok g cli w cs hread,
    GitHubPullRequest.ListPostComments]

/-- On the durable host nothing is ever removed, and every request whose call returned
no error is among the remote comments afterwards. -/
theorem Flash.goroutines_durable
    (reject : List PullRequestComment → PullRequestComment → Option Error)
    (g : GitHubPullRequest) (reqs : List PullRequestComment) :
    ∀ w : World (List PullRequestComment),
      (∀ x ∈ w.host, x ∈ (Flash.goroutines (durableHost reject) g w reqs).1.host) ∧
      ((∀ e ∈ (Flash.goroutines (durableHost reject) g w reqs).2, e = none) →
        ∀ q ∈ reqs, q ∈ (Flash.goroutines (durableHost reject) g w reqs).1.host) := by
  induction reqs with
  | nil => intro w; simp [Flash.goroutines]
  | cons r rest ih =>
    intro w
    obtain ⟨ih1, ih2⟩ := ih ((durableHost reject).createComment w g.owner g.repo g.pr r).1
    simp only [Flash.goroutines, List.mem_cons, forall_eq_or_imp]
    cases hrej : reject w.host r with
    | some err =>
      have hw : (((durableHost reject).createComment w g.owner g.repo g.pr r).1).host =
          w.host := by
        simp [Client.createComment, durableHost, hrej]
      have he : ((durableHost reject).createComment w g.owner g.repo g.pr r).2 = some err := by
        simp [Client.createComment, durableHost, hrej]
      refine ⟨fun x hx => ih1 x (hw ▸ hx), ?_⟩
      rw [he]
      intro h
      exact absurd h.1 (by simp)
    | none =>
      have hw : (((durableHost reject).createComment w g.owner g.repo g.pr r).1).host =
          w.host ++ [r] := by
        simp [Client.createComment, durableHost, hrej]
      refine ⟨fun x hx => ih1 x (by rw [hw]; exact List.mem_append_left _ hx), ?_⟩
      intro h
      exact ⟨ih1 r (by rw [hw]; simp), ih2 h.2⟩

theorem Flash_all_posted {σ : Type} (g : GitHubPullRequest) (cli : Client σ)
    (sch : Schedule) (w : World σ) (cs : List PullRequestComment)
    (hread : (cli.ListComments w.host g.owner g.repo g.pr).2 = Except.ok cs)
    (hall : ∀ c ∈ g.postComments, IsPosted (setPostedComment.loop GoMap.empty cs) c = true) :
    creates (g.FlashCalls cli sch w) = [] ∧ (g.Flash cli sch w).2.2 = none := by
  obtain ⟨errs, hlen, _, herr, hcalls⟩ := Flash_of_ok g cli sch w cs hread
  have hloop : Flash.loop { g with postedcs := setPostedComment.loop GoMap.empty cs }
      g.postComments = [] := by
    rw [Flash.loop_eq_filter_map]
    simp only [List.map_eq_nil_iff, List.filter_eq_nil_iff]
    intro c hc
    simpa using hall c hc
  rw [hloop, interleave_nil] at hlen hcalls
  have hnil : errs = [] := by simpa using hlen
  subst hnil
  rw [hcalls, herr, interleave_nil]
  exact ⟨rfl, rfl⟩

/-- C6: against the durable host, from any remote comments and any staged comments, if a
first `Flash` returns no error then a second `Flash` of the same staged comments issues
no create-comment request and returns no error, whatever the two schedules. -/
theorem Flash_idempotent
    (reject : List PullRequestComment → PullRequestComment → Option Error)
    (g : GitHubPullRequest) (sch1 sch2 : Schedule) (w : World (List PullRequestComment))
    (hfirst : (g.Flash (durableHost reject) sch1 w).2.2 = none) :
    (g.Flash (durableHost reject) sch1 w).2.1.ListPostComments = g.ListPostComments ∧
    creates ((g.Flash (durableHost reject) sch1 w).2.1.FlashCalls (durableHost reject) sch2
      (g.Flash (durableHost reject) sch1 w).1) = [] ∧
    ((g.Flash (durableHost reject) sch1 w).2.1.Flash (durableHost reject) sch2
      (g.Flash (durableHost reject) sch1 w).1).2.2 = none := by
  have hread1 : ((durableHost reject).ListComments w.host g.owner g.repo g.pr).2 =
      Except.ok w.host := rfl
  rw [Flash_eq_of_ok g (durableHost reject) sch1 w w.host hread1] at hfirst ⊢
  simp only at hfirst ⊢
  rw [errgroup.Wait_eq_none_iff] at hfirst
  have hsucc : ∀ e ∈ (Flash.goroutines (durableHost reject)
      { g with postedcs := setPostedComment.loop GoMap.empty w.host }
      { host := ((durableHost reject).ListComments w.host g.owner g.repo g.pr).1,
        trace := w.trace ++ [Call.ListComments g.owner g.repo g.pr none] }
      (interleave sch1.run
        (Flash.loop { g with postedcs := setPostedComment.loop GoMap.empty w.host }
          g.postComments))).2, e = none :=
    fun e he => hfirst e ((interleave_perm sch1.done _).mem_iff.2 he)
  obtain ⟨hkeep, hadd⟩ := Flash.goroutines_durable reject
    { g with postedcs := setPostedComment.loop GoMap.empty w.host }
    (interleave sch1.run
      (Flash.loop { g with postedcs := setPostedComment.loop GoMap.empty w.host }
        g.postComments))
    { host := ((durableHost reject).ListComments w.host g.owner g.repo g.pr).1,
      trace := w.trace ++ [Call.ListComments g.owner g.repo g.pr none] }
  have hadd2 := hadd hsucc
  refine ⟨rfl, ?_⟩
  apply Flash_all_posted _ (durableHost reject) sch2 _ _ rfl
  intro c hc
  rw [IsPosted_loop_iff]
  by_cases hposted : IsPosted (setPostedComment.loop GoMap.empty w.host) c = true
  · obtain ⟨r, hr, hfields⟩ := (IsPosted_loop_iff w.host c).1 hposted
    exact ⟨r, hkeep r hr, hfields⟩
  · refine ⟨Flash.request { g with postedcs := setPostedComment.loop GoMap.empty w.host } c,
      ?_, rfl, rfl, rfl⟩
    apply hadd2
    rw [(interleave_perm sch1.run _).mem_iff, Flash.loop_eq_filter_map]
    apply List.mem_map_of_mem
    rw [List.mem_filter]
    refine ⟨hc, ?_⟩
    simpa using hposted

/-- C6 (witness): three staged comments, one of them already remote; the first `Flash`
posts the other two, out of order, and returns no error. -/
theorem Flash_idempotent_witness :
    creates ((((exampleService (exampleStaged "golint")).Flash (durableHost fun _ => accept)
        { run := [1], done := [1] }
        (World.start [remote "x.go" 3 (bodyPrefix ++ "\nbug")])).2.1).FlashCalls
      (durableHost fun _ => accept) inOrder
      ((exampleService (exampleStaged "golint")).Flash (durableHost fun _ => accept)
        { run := [1], done := [1] }
        (World.start [remote "x.go" 3 (bodyPrefix ++ "\nbug")])).1) = [] :=
  (Flash_idempotent (fun _ => accept) (exampleService (exampleStaged "golint"))
    { run := [1], done := [1] } inOrder
    (World.start [remote "x.go" 3 (bodyPrefix ++ "\nbug")]) (by decide)).2.1

/-! ## Staging: theorems -/

theorem PostAll_spec (cs : List Comment) :
    ∀ g : GitHubPullRequest,
      (g.PostAll cs).1 = { g with postComments := g.postComments ++ cs } ∧
      (g.PostAll cs).2 = List.replicate cs.length none := by
  induction cs with
  | nil => intro g; simp [GitHubPullRequest.PostAll]
  | cons c rest ih =>
    intro g
    obtain ⟨h1, h2⟩ := ih (g.Post c).1
    simp only [GitHubPullRequest.PostAll, h1, h2]
    simp [GitHubPullRequest.Post, List.replicate_succ]

/-- C11: `Post c` returns no error and leaves the staged sequence followed by `c`, with
owner, repo, pull request number, head SHA and posted index unchanged; hence the calls
`Post c1`, ..., `Post cn` on a new service all return no error and leave exactly
`[c1, ..., cn]` staged, repetitions kept. -/
theorem Post_appends (g : GitHubPullRequest) (c : Comment) (cs : List Comment)
    (owner repo : String) (pr : Int) (sha : String) :
    (g.Post c).2 = none ∧
    (g.Post c).1.ListPostComments = g.ListPostComments ++ [c] ∧
    (g.Post c).1.owner = g.owner ∧ (g.Post c).1.repo = g.repo ∧ (g.Post c).1.pr = g.pr ∧
    (g.Post c).1.sha = g.sha ∧ (g.Post c).1.postedcs = g.postedcs ∧
    (NewGitHubPullReqest owner repo pr sha).ListPostComments = [] ∧
    ((NewGitHubPullReqest owner repo pr sha).PostAll cs).1.ListPostComments = cs ∧
    ∀ e ∈ ((NewGitHubPullReqest owner repo pr sha).PostAll cs).2, e = none := by
  obtain ⟨h1, h2⟩ := PostAll_spec cs (NewGitHubPullReqest owner repo pr sha)
  refine ⟨rfl, rfl, rfl, rfl, rfl, rfl, rfl, rfl, ?_, ?_⟩
  · rw [h1]
    simp [GitHubPullRequest.ListPostComments, NewGitHubPullReqest]
  · rw [h2]
    intro e he
    exact (List.mem_replicate.1 he).2

/-! ## Flash: what it leaves unchanged and the order of its calls -/

theorem Flash_trace_append {σ : Type} (g : GitHubPullRequest) (cli : Client σ)
    (sch : Schedule) (w : World σ) :
    (g.Flash cli sch w).1.trace = w.trace ++ g.FlashCalls cli sch w := by
  have hex : ∃ t, (g.Flash cli sch w).1.trace = w.trace ++ t := by
    cases hr : (cli.ListComments w.host g.owner g.repo g.pr).2 with
    | error e =>
      refine ⟨[Call.ListComments g.owner g.repo g.pr (some e)], ?_⟩
      simp [GitHubPullRequest.Flash, setPostedComment_of_error g cli w e hr]
    | ok cs =>
      rw [Flash_eq_of_ok g cli sch w cs hr]
      simp only []
      rw [(Flash.goroutines_trace cli _ _ _).2]
      exact ⟨_, List.append_assoc _ _ _⟩
  obtain ⟨t, ht⟩ := hex
  unfold GitHubPullRequest.FlashCalls
  rw [ht, List.drop_left]

/-- C12: whatever the list read and the create-comment calls return, `Flash` leaves the
staged comments, the owner, the repo, the pull request number and the head SHA as they
were. -/
theorem Flash_frame {σ : Type} (g : GitHubPullRequest) (cli : Client σ) (sch : Schedule)
    (w : World σ) :
    (g.Flash cli sch w).2.1.ListPostComments = g.ListPostComments ∧
    (g.Flash cli sch w).2.1.owner = g.owner ∧ (g.Flash cli sch w).2.1.repo = g.repo ∧
    (g.Flash cli sch w).2.1.pr = g.pr ∧ (g.Flash cli sch w).2.1.sha = g.sha := by
  cases hr : (cli.ListComments w.host g.owner g.repo g.pr).2 with
  | error e =>
    obtain ⟨_, hg, _⟩ := Flash_of_error g cli sch w e hr
    rw [hg]
    exact ⟨rfl, rfl, rfl, rfl, rfl⟩
  | ok cs =>
    obtain ⟨_, _, hg, _, _⟩ := Flash_of_ok g cli sch w cs hr
    rw [hg]
    exact ⟨rfl, rfl, rfl, rfl, rfl⟩

/-- C13: the calls that one `Flash` adds to the trace are one list read of the pull
request's comments followed by create-comment calls only: exactly one list read occurs
and no create-comment call precedes it. -/
theorem Flash_trace_order {σ : Type} (g : GitHubPullRequest) (cli : Client σ)
    (sch : Schedule) (w : World σ) :
    (g.Flash cli sch w).1.trace = w.trace ++ g.FlashCalls cli sch w ∧
    listReads (g.FlashCalls cli sch w) = 1 ∧
    ∃ err rest, g.FlashCalls cli sch w = Call.ListComments g.owner g.repo g.pr err :: rest ∧
      listReads rest = 0 ∧ (creates rest).length = rest.length := by
  refine ⟨Flash_trace_append g cli sch w, ?_⟩
  cases hr : (cli.ListComments w.host g.owner g.repo g.pr).2 with
  | error e =>
    obtain ⟨_, _, hcalls⟩ := Flash_of_error g cli sch w e hr
    rw [hcalls]
    exact ⟨rfl, some e, [], rfl, rfl, rfl⟩
  | ok cs =>
    obtain ⟨errs, hlen, _, _, hcalls⟩ := Flash_of_ok g cli sch w cs hr
    obtain ⟨h1, _, h3⟩ := creates_zipWith g.owner g.repo g.pr _ errs hlen
    rw [hcalls]
    refine ⟨by simp [listReads, h3], none, _, rfl, h3, ?_⟩
    rw [h1]
    simp [hlen]

/-! ## Rendering: what the rendered body determines -/

theorem string_append_left_cancel (s a b : String) (h : s ++ a = s ++ b) : a = b := by
  rw [String.ext_iff, String.data_append, String.data_append] at h
  exact String.ext (List.append_cancel_left h)

theorem commentBody_of_tool (c : Comment) (h : c.ToolName ≠ "") :
    commentBody c = "**[" ++ (c.ToolName ++ ("]** " ++ (bodyPrefix ++ ("\n" ++ c.Body)))) := by
  simp [commentBody, h, String.append_assoc]

theorem commentBody_of_no_tool (c : Comment) (h : c.ToolName = "") :
    commentBody c = bodyPrefix ++ ("\n" ++ c.Body) := by
  simp [commentBody, h, String.append_assoc]

theorem commentBody_head_of_tool (c : Comment) (h : c.ToolName ≠ "") :
    (commentBody c).data.head? = some '*' := by
  rw [commentBody_of_tool c h, String.data_append]
  rfl

theorem commentBody_head_of_no_tool (c : Comment) (h : c.ToolName = "") :
    (commentBody c).data.head? = some '<' := by
  rw [commentBody_of_no_tool c h, String.data_append]
  rfl

theorem commentBody_ne_of_tool (c1 c2 : Comment) (h1 : c1.ToolName = "")
    (h2 : c2.ToolName ≠ "") : commentBody c1 ≠ commentBody c2 := by
  intro h
  have e1 := commentBody_head_of_no_tool c1 h1
  have e2 := commentBody_head_of_tool c2 h2
  rw [h, e2] at e1
  exact absurd e1 (by decide)

/-- C18: for two comments with the same tool name, or of which exactly one has an empty
tool name, equal rendered bodies force equal tool names and equal bodies. -/
theorem commentBody_injective (c1 c2 : Comment)
    (hTool : c1.ToolName = c2.ToolName ∨ (c1.ToolName = "" ∧ c2.ToolName ≠ "") ∨
      (c1.ToolName ≠ "" ∧ c2.ToolName = ""))
    (hEq : commentBody c1 = commentBody c2) :
    c1.ToolName = c2.ToolName ∧ c1.Body = c2.Body := by
  rcases hTool with h | ⟨h1, h2⟩ | ⟨h1, h2⟩
  · refine ⟨h, ?_⟩
    unfold commentBody at hEq
    rw [h] at hEq
    simp only [String.append_assoc] at hEq
    exact string_append_left_cancel _ _ _
      (string_append_left_cancel _ _ _ (string_append_left_cancel _ _ _ hEq))
  · exact absurd hEq (commentBody_ne_of_tool c1 c2 h1 h2)
  · exact absurd hEq.symm (commentBody_ne_of_tool c2 c1 h2 h1)

/-- C18 (witness): two comments of the tool `golint` on different paths. -/
theorem commentBody_injective_witness :
    commentBody { Path := "x.go", LnumDiff := 3, Body := "bug", ToolName := "golint" } =
      commentBody { Path := "y.go", LnumDiff := 7, Body := "bug", ToolName := "golint" } ∧
    (({ Path := "x.go", LnumDiff := 3, Body := "bug", ToolName := "golint" } : Comment).ToolName =
      ({ Path := "y.go", LnumDiff := 7, Body := "bug", ToolName := "golint" } : Comment).ToolName ∧
     ({ Path := "x.go", LnumDiff := 3, Body := "bug", ToolName := "golint" } : Comment).Body =
      ({ Path := "y.go", LnumDiff := 7, Body := "bug", ToolName := "golint" } : Comment).Body) :=
  ⟨by decide,
   commentBody_injective
    { Path := "x.go", LnumDiff := 3, Body := "bug", ToolName := "golint" }
    { Path := "y.go", LnumDiff := 7, Body := "bug", ToolName := "golint" }
    (Or.inl rfl) (by decide)⟩

/-! ## Dedup: equal comments, fresh index, monotonicity -/

theorem commentBody_congr_fields (c1 c2 : Comment) (hTool : c1.ToolName = c2.ToolName)
    (hBody : c1.Body = c2.Body) : commentBody c1 = commentBody c2 := by
  unfold commentBody
  rw [hTool, hBody]

theorem Flash_request_mem_iff {σ : Type} (g : GitHubPullRequest) (cli : Client σ)
    (sch : Schedule) (w : World σ) (cs : List PullRequestComment)
    (hread : (cli.ListComments w.host g.owner g.repo g.pr).2 = Except.ok cs)
    (c : Comment) (hc : c ∈ g.postComments) :
    Flash.request g c ∈ creates (g.FlashCalls cli sch w) ↔
      IsPosted (setPostedComment.loop GoMap.empty cs) c = false := by
  rw [(Flash_creates_perm g cli sch w cs hread).mem_iff]
  simp only [List.mem_map, List.mem_filter, Flash.request]
  constructor
  · rintro ⟨c2, ⟨_, hnot⟩, heq⟩
    simp only [PullRequestComment.mk.injEq, Option.some.injEq, true_and] at heq
    rw [← IsPosted_congr (setPostedComment.loop GoMap.empty cs) c2 c heq.2.1 heq.2.2 heq.1]
    simpa using hnot
  · intro h
    exact ⟨c, ⟨hc, by simp [h]⟩, rfl⟩

theorem IsPosted_example_tool (tool : String) (htool : tool ≠ "") :
    IsPosted (setPostedComment.loop GoMap.empty [remote "x.go" 3 (bodyPrefix ++ "\nbug")])
      { Path := "x.go", LnumDiff := 3, Body := "bug", ToolName := tool } = false := by
  rw [← Bool.not_eq_true, IsPosted_loop_iff]
  rintro ⟨r, hr, _, _, hbody⟩
  rw [List.mem_singleton] at hr
  subst hr
  simp only [remote, Option.some.injEq] at hbody
  have hne := commentBody_ne_of_tool
    { Path := "x.go", LnumDiff := 3, Body := "bug", ToolName := "" }
    { Path := "x.go", LnumDiff := 3, Body := "bug", ToolName := tool } rfl htool
  apply hne
  rw [← hbody]
  decide

theorem countP_two_of_getElem {α : Type} (p : α → Bool) (l : List α) :
    ∀ (i j : Nat) (a b : α), i ≠ j → l[i]? = some a → l[j]? = some b → p a = true →
      p b = true → 2 ≤ l.countP p := by
  induction l with
  | nil => intro i j a b _ ha; simp at ha
  | cons x xs ih =>
    intro i j a b hij ha hb hpa hpb
    cases i with
    | zero =>
      cases j with
      | zero => exact absurd rfl hij
      | succ j2 =>
        simp only [List.getElem?_cons_zero, Option.some.injEq] at ha
        simp only [List.getElem?_cons_succ] at hb
        have hmem : b ∈ xs := List.getElem?_mem hb
        have hpos : 0 < xs.countP p := List.countP_pos_iff.2 ⟨b, hmem, hpb⟩
        have hx : p x = true := by rw [ha]; exact hpa
        rw [List.countP_cons, if_pos hx]
        omega
    | succ i2 =>
      cases j with
      | zero =>
        simp only [List.getElem?_cons_zero, Option.some.injEq] at hb
        simp only [List.getElem?_cons_succ] at ha
        have hmem : a ∈ xs := List.getElem?_mem ha
        have hpos : 0 < xs.countP p := List.countP_pos_iff.2 ⟨a, hmem, hpa⟩
        have hx : p x = true := by rw [hb]; exact hpb
        rw [List.countP_cons, if_pos hx]
        omega
      | succ j2 =>
        simp only [List.getElem?_cons_succ] at ha hb
        have h2 := ih i2 j2 a b (fun e => hij (by rw [e])) ha hb hpa hpb
        rw [List.countP_cons]
        omega

/-- The number of create-comment requests of one `Flash` that carry the request of the
staged comment `c`: none when `c` is posted, and otherwise one for each staged comment
that gives the same request. -/
theorem Flash_request_count {σ : Type} (g : GitHubPullRequest) (cli : Client σ)
    (sch : Schedule) (w : World σ) (cs : List PullRequestComment)
    (hread : (cli.ListComments w.host g.owner g.repo g.pr).2 = Except.ok cs) (c : Comment) :
    (creates (g.FlashCalls cli sch w)).count (Flash.request g c) =
      if IsPosted (setPostedComment.loop GoMap.empty cs) c = true then 0
      else g.postComments.countP fun d => decide (Flash.request g d = Flash.request g c) := by
  rw [(Flash_creates_perm g cli sch w cs hread).count_eq, List.count_eq_countP,
    List.countP_map, List.countP_filter]
  have hsame : ∀ d : Comment, Flash.request g d = Flash.request g c →
      IsPosted (setPostedComment.loop GoMap.empty cs) d =
        IsPosted (setPostedComment.loop GoMap.empty cs) c := by
    intro d hd
    simp only [Flash.request, PullRequestComment.mk.injEq, Option.some.injEq, true_and] at hd
    exact IsPosted_congr _ d c hd.2.1 hd.2.2 hd.1
  by_cases hc : IsPosted (setPostedComment.loop GoMap.empty cs) c = true
  · rw [if_pos hc, List.countP_eq_zero]
    intro d _ hd
    simp only [Function.comp_apply, Bool.and_eq_true, beq_iff_eq, Bool.not_eq_true'] at hd
    rw [hsame d hd.1, hc] at hd
    exact absurd hd.2 (by simp)
  · rw [if_neg hc]
    apply List.countP_congr
    intro d _
    simp only [Function.comp_apply, Bool.and_eq_true, beq_iff_eq, decide_eq_true_eq]
    constructor
    · exact fun h => h.1
    · intro h
      refine ⟨h, ?_⟩
      rw [hsame d h]
      simpa using hc

/-- C14: two staged comments with equal path, position, body and tool name get the same
answer from `IsPosted` on every index (as do any two comments with equal path, position
and rendered body), and one `Flash` never splits them: the number of its requests that
carry their fields is zero when they are posted, and otherwise the number of staged
comments giving that request, which is at least two, one for each of them. In the
scenario of three staged comments `(x.go, 3, bug)`, `(x.go, 3, bug)`, `(y.go, 3, bug)`:
with no remote comment all three are requested; with the frame and `bug` already remote
at `(x.go, 3)`, `Flash` issues exactly one request, for the third, when all tool names
are empty, and requests for the second and the third when the second has a non-empty
tool name. -/
theorem Flash_never_splits {σ : Type} (idx : postedcomments) (A B : Comment)
    (cli : Client σ) (sch : Schedule) (w : World σ) (tool : String)
    (hPath : A.Path = B.Path) (hPos : A.LnumDiff = B.LnumDiff) (hBody : A.Body = B.Body)
    (hTool : A.ToolName = B.ToolName) :
    IsPosted idx A = IsPosted idx B ∧
    (∀ C D : Comment, C.Path = D.Path → C.LnumDiff = D.LnumDiff →
      commentBody C = commentBody D → IsPosted idx C = IsPosted idx D) ∧
    (∀ (g : GitHubPullRequest) (cs : List PullRequestComment) (i j : Nat),
      (cli.ListComments w.host g.owner g.repo g.pr).2 = Except.ok cs →
      i ≠ j → g.ListPostComments[i]? = some A → g.ListPostComments[j]? = some B →
      Flash.request g A = Flash.request g B ∧
      (creates (g.FlashCalls cli sch w)).count (Flash.request g A) =
        (if IsPosted (g.Flash cli sch w).2.1.postedcs A = true then 0
         else g.ListPostComments.countP fun d =>
           decide (Flash.request g d = Flash.request g A)) ∧
      (IsPosted (g.Flash cli sch w).2.1.postedcs A = true →
        (creates (g.FlashCalls cli sch w)).count (Flash.request g A) = 0) ∧
      (IsPosted (g.Flash cli sch w).2.1.postedcs A = false →
        2 ≤ (creates (g.FlashCalls cli sch w)).count (Flash.request g A))) ∧
    ((cli.ListComments w.host "o" "r" 7).2 = Except.ok [] →
      List.Perm (creates ((exampleService (exampleStaged "")).FlashCalls cli sch w))
        [{ CommitID := some "abc", Body := some (bodyPrefix ++ "\nbug"),
           Path := some "x.go", Position := some 3 },
         { CommitID := some "abc", Body := some (bodyPrefix ++ "\nbug"),
           Path := some "x.go", Position := some 3 },
         { CommitID := some "abc", Body := some (bodyPrefix ++ "\nbug"),
           Path := some "y.go", Position := some 3 }]) ∧
    ((cli.ListComments w.host "o" "r" 7).2 =
        Except.ok [remote "x.go" 3 (bodyPrefix ++ "\nbug")] →
      creates ((exampleService (exampleStaged "")).FlashCalls cli sch w) =
        [{ CommitID := some "abc", Body := some (bodyPrefix ++ "\nbug"),
           Path := some "y.go", Position := some 3 }]) ∧
    ((cli.ListComments w.host "o" "r" 7).2 =
        Except.ok [remote "x.go" 3 (bodyPrefix ++ "\nbug")] → tool ≠ "" →
      List.Perm (creates ((exampleService (exampleStaged tool)).FlashCalls cli sch w))
        [{ CommitID := some "abc", Body := some ("**[" ++ tool ++ "]** " ++ bodyPrefix ++ "\nbug"),
           Path := some "x.go", Position := some 3 },
         { CommitID := some "abc", Body := some (bodyPrefix ++ "\nbug"),
           Path := some "y.go", Position := some 3 }]) := by
  have hsame : ∀ p : postedcomments, IsPosted p A = IsPosted p B := fun p =>
    IsPosted_congr p A B hPath hPos (commentBody_congr_fields A B hTool hBody)
  refine ⟨hsame idx, fun C D h1 h2 h3 => IsPosted_congr idx C D h1 h2 h3, ?_, ?_, ?_, ?_⟩
  · intro g cs i j hread hij hA hB
    obtain ⟨_, _, hg, _, _⟩ := Flash_of_ok g cli sch w cs hread
    have hreq : Flash.request g A = Flash.request g B := by
      simp only [Flash.request, hPath, hPos, commentBody_congr_fields A B hTool hBody]
    have hcount := Flash_request_count g cli sch w cs hread A
    rw [hg]
    refine ⟨hreq, hcount, ?_, ?_⟩
    · intro hposted
      rw [hcount, if_pos hposted]
    · intro hnot
      have hne : ¬ IsPosted (setPostedComment.loop GoMap.empty cs) A = true := by
        rw [Bool.not_eq_true]; exact hnot
      rw [hcount, if_neg hne]
      exact countP_two_of_getElem _ g.postComments i j A B hij hA hB
        (decide_eq_true rfl) (decide_eq_true hreq.symm)
  · intro hread
    have hperm := Flash_creates_perm (exampleService (exampleStaged "")) cli sch w _ hread
    have hfilter : ((exampleService (exampleStaged "")).postComments.filter fun c =>
        !IsPosted (setPostedComment.loop GoMap.empty []) c).map
          (Flash.request (exampleService (exampleStaged ""))) =
        [{ CommitID := some "abc", Body := some (bodyPrefix ++ "\nbug"),
           Path := some "x.go", Position := some 3 },
         { CommitID := some "abc", Body := some (bodyPrefix ++ "\nbug"),
           Path := some "x.go", Position := some 3 },
         { CommitID := some "abc", Body := some (bodyPrefix ++ "\nbug"),
           Path := some "y.go", Position := some 3 }] := by
      decide
    rw [hfilter] at hperm
    exact hperm
  · intro hread
    have hperm := Flash_creates_perm (exampleService (exampleStaged "")) cli sch w _ hread
    have hfilter : ((exampleService (exampleStaged "")).postComments.filter fun c =>
        !IsPosted (setPostedComment.loop GoMap.empty
          [remote "x.go" 3 (bodyPrefix ++ "\nbug")]) c).map
          (Flash.request (exampleService (exampleStaged ""))) =
        [{ CommitID := some "abc", Body := some (bodyPrefix ++ "\nbug"),
           Path := some "y.go", Position := some 3 }] := by
      decide
    rw [hfilter] at hperm
    exact List.perm_singleton.1 hperm
  · intro hread htool
    have hperm := Flash_creates_perm (exampleService (exampleStaged tool)) cli sch w _ hread
    have hA : IsPosted (setPostedComment.loop GoMap.empty
        [remote "x.go" 3 (bodyPrefix ++ "\nbug")])
        { Path := "x.go", LnumDiff := 3, Body := "bug", ToolName := "" } = true := by decide
    have hC : IsPosted (setPostedComment.loop GoMap.empty
        [remote "x.go" 3 (bodyPrefix ++ "\nbug")])
        { Path := "y.go", LnumDiff := 3, Body := "bug", ToolName := "" } = false := by decide
    have hB := IsPosted_example_tool tool htool
    have hbody : commentBody { Path := "x.go", LnumDiff := 3, Body := "bug", ToolName := tool } =
        "**[" ++ tool ++ "]** " ++ bodyPrefix ++ "\nbug" := by
      have hnl : "\n" ++ "bug" = "\nbug" := by decide
      simp only [commentBody, ne_eq, htool, not_false_eq_true, if_true]
      rw [String.append_assoc _ "\n" "bug", hnl]
    have hbodyC : commentBody { Path := "y.go", LnumDiff := 3, Body := "bug", ToolName := "" } =
        bodyPrefix ++ "\nbug" := by
      decide
    simp only [exampleService, exampleStaged, List.filter_cons, hA, hB, hC, Bool.not_true,
      Bool.not_false, Bool.false_eq_true, if_false, if_true, List.filter_nil, List.map_cons,
      List.map_nil, Flash.request, hbody, hbodyC] at hperm
    exact hperm

/-- C14 (witness): the first two staged comments of the scenario are equal. With no
remote comment at least two requests carry their fields; with the frame and `bug`
already remote at `(x.go, 3)`, none does. -/
theorem Flash_never_splits_witness :
    2 ≤ (creates ((exampleService (exampleStaged "")).FlashCalls
        (fixedClient (Except.ok []) accept) { run := [1], done := [] }
        (World.start ()))).count
      (Flash.request (exampleService (exampleStaged ""))
        { Path := "x.go", LnumDiff := 3, Body := "bug", ToolName := "" }) ∧
    (creates ((exampleService (exampleStaged "")).FlashCalls
        (fixedClient (Except.ok [remote "x.go" 3 (bodyPrefix ++ "\nbug")]) accept) inOrder
        (World.start ()))).count
      (Flash.request (exampleService (exampleStaged ""))
        { Path := "x.go", LnumDiff := 3, Body := "bug", ToolName := "" }) = 0 :=
  ⟨((Flash_never_splits GoMap.empty
      { Path := "x.go", LnumDiff := 3, Body := "bug", ToolName := "" }
      { Path := "x.go", LnumDiff := 3, Body := "bug", ToolName := "" }
      (fixedClient (Except.ok []) accept) { run := [1], done := [] }
      (World.start ()) "golint" rfl rfl rfl rfl).2.2.1
      (exampleService (exampleStaged "")) [] 0 1 rfl (by decide) rfl rfl).2.2.2 (by decide),
   ((Flash_never_splits GoMap.empty
      { Path := "x.go", LnumDiff := 3, Body := "bug", ToolName := "" }
      { Path := "x.go", LnumDiff := 3, Body := "bug", ToolName := "" }
      (fixedClient (Except.ok [remote "x.go" 3 (bodyPrefix ++ "\nbug")]) accept) inOrder
      (World.start ()) "golint" rfl rfl rfl rfl).2.2.1
      (exampleService (exampleStaged "")) [remote "x.go" 3 (bodyPrefix ++ "\nbug")] 0 1 rfl
      (by decide) rfl rfl).2.2.1 (by decide)⟩

/-- C16: `Strip` returns 1 in every service state, also after a `Post` and after a
`Flash`. -/
theorem Strip_eq_one {σ : Type} (g : GitHubPullRequest) (c : Comment) (cli : Client σ)
    (sch : Schedule) (w : World σ) :
    g.Strip = 1 ∧ (g.Post c).1.Strip = 1 ∧ (g.Flash cli sch w).2.1.Strip = 1 :=
  ⟨rfl, rfl, rfl⟩

/-- C17: when the list read returns `cs`, the index held after `setPostedComment` is the
index built from `cs` starting from an empty map, whatever index the service held
before; a comment that no remote comment of `cs` matches is not reported as posted, even
if the earlier index reported it. -/
theorem setPostedComment_fresh {σ : Type} (g : GitHubPullRequest) (cli : Client σ)
    (w : World σ) (cs : List PullRequestComment) (prior : postedcomments)
    (hread : (cli.ListComments w.host g.owner g.repo g.pr).2 = Except.ok cs) :
    (g.setPostedComment cli w).2.1.postedcs = setPostedComment.loop GoMap.empty cs ∧
    ({ g with postedcs := prior }.setPostedComment cli w).2.1.postedcs =
      (g.setPostedComment cli w).2.1.postedcs ∧
    ∀ c : Comment,
      (¬ ∃ r ∈ cs, r.Position = some c.LnumDiff ∧ r.Path = some c.Path ∧
        r.Body = some (commentBody c)) →
      IsPosted ({ g with postedcs := prior }.setPostedComment cli w).2.1.postedcs c = false := by
  have h1 := setPostedComment_of_ok g cli w cs hread
  have h2 := setPostedComment_of_ok { g with postedcs := prior } cli w cs hread
  rw [h1, h2]
  refine ⟨rfl, rfl, ?_⟩
  intro c hnone
  rw [← Bool.not_eq_true]
  exact fun h => hnone ((IsPosted_loop_iff cs c).1 h)

/-- C17 (witness): the service holds an index in which a comment is posted; the next
list read returns no comment, and afterwards the comment is not posted. -/
theorem setPostedComment_fresh_witness :
    IsPosted (setPostedComment.loop GoMap.empty [remote "x.go" 3 (bodyPrefix ++ "\nbug")])
      { Path := "x.go", LnumDiff := 3, Body := "bug", ToolName := "" } = true ∧
    IsPosted
      (({ exampleService [] with
          postedcs := setPostedComment.loop GoMap.empty
            [remote "x.go" 3 (bodyPrefix ++ "\nbug")] }).setPostedComment
        (fixedClient (Except.ok []) accept) (World.start ())).2.1.postedcs
      { Path := "x.go", LnumDiff := 3, Body := "bug", ToolName := "" } = false :=
  ⟨by decide,
   (setPostedComment_fresh (exampleService []) (fixedClient (Except.ok []) accept)
      (World.start ()) []
      (setPostedComment.loop GoMap.empty [remote "x.go" 3 (bodyPrefix ++ "\nbug")]) rfl).2.2
      { Path := "x.go", LnumDiff := 3, Body := "bug", ToolName := "" } (by simp)⟩

theorem IsPosted_loop_mono (cs ds : List PullRequestComment) (hsub : ∀ r ∈ cs, r ∈ ds)
    (c : Comment) (h : IsPosted (setPostedComment.loop GoMap.empty cs) c = true) :
    IsPosted (setPostedComment.loop GoMap.empty ds) c = true := by
  rw [IsPosted_loop_iff] at h ⊢
  obtain ⟨r, hr, hfields⟩ := h
  exact ⟨r, hsub r hr, hfields⟩

theorem Flash_creates_subperm {σ τ : Type} (g : GitHubPullRequest) (cli1 : Client σ)
    (cli2 : Client τ) (sch1 sch2 : Schedule) (w1 : World σ) (w2 : World τ)
    (cs ds : List PullRequestComment) (hsub : ∀ r ∈ cs, r ∈ ds)
    (hread1 : (cli1.ListComments w1.host g.owner g.repo g.pr).2 = Except.ok cs)
    (hread2 : (cli2.ListComments w2.host g.owner g.repo g.pr).2 = Except.ok ds) :
    List.Subperm (creates (g.FlashCalls cli2 sch2 w2)) (creates (g.FlashCalls cli1 sch1 w1)) := by
  have h1 := Flash_creates_perm g cli1 sch1 w1 cs hread1
  have h2 := Flash_creates_perm g cli2 sch2 w2 ds hread2
  rw [List.Perm.subperm_right h2, List.Perm.subperm_left h1]
  apply List.Sublist.subperm
  apply List.Sublist.map
  apply List.monotone_filter_right
  intro c hc
  cases hcs : IsPosted (setPostedComment.loop GoMap.empty cs) c with
  | false => rfl
  | true =>
    rw [IsPosted_loop_mono cs ds hsub c hcs] at hc
    simp at hc

/-- C19: a comment posted on the index built from `cs` is posted on the index built from
`cs ++ ds` and on the one built from `ds ++ cs`; and the create-comment requests of a
`Flash` whose list read returns `cs ++ ds`, or `ds ++ cs`, are a sub-multiset of those of
a `Flash` of the same service state whose list read returns `cs`. -/
theorem IsPosted_mono {σ τ : Type} (cs ds : List PullRequestComment) (c : Comment)
    (g : GitHubPullRequest) (cli1 : Client σ) (cli2 : Client τ) (sch1 sch2 : Schedule)
    (w1 : World σ) (w2 : World τ) :
    (IsPosted (setPostedComment.loop GoMap.empty cs) c = true →
      IsPosted (setPostedComment.loop GoMap.empty (cs ++ ds)) c = true ∧
      IsPosted (setPostedComment.loop GoMap.empty (ds ++ cs)) c = true) ∧
    ((cli1.ListComments w1.host g.owner g.repo g.pr).2 = Except.ok cs →
      ((cli2.ListComments w2.host g.owner g.repo g.pr).2 = Except.ok (cs ++ ds) ∨
        (cli2.ListComments w2.host g.owner g.repo g.pr).2 = Except.ok (ds ++ cs)) →
      List.Subperm (creates (g.FlashCalls cli2 sch2 w2))
        (creates (g.FlashCalls cli1 sch1 w1))) := by
  refine ⟨fun h => ⟨?_, ?_⟩, ?_⟩
  · exact IsPosted_loop_mono cs (cs ++ ds) (fun r hr => List.mem_append_left _ hr) c h
  · exact IsPosted_loop_mono cs (ds ++ cs) (fun r hr => List.mem_append_right _ hr) c h
  · intro hread1 hread2
    rcases hread2 with hread2 | hread2
    · exact Flash_creates_subperm g cli1 cli2 sch1 sch2 w1 w2 cs (cs ++ ds)
        (fun r hr => List.mem_append_left _ hr) hread1 hread2
    · exact Flash_creates_subperm g cli1 cli2 sch1 sch2 w1 w2 cs (ds ++ cs)
        (fun r hr => List.mem_append_right _ hr) hread1 hread2

/-- C19 (witness): with no remote comment the three staged comments are requested; with
one more remote comment the requests are among those three. -/
theorem IsPosted_mono_witness :
    List.Subperm
      (creates ((exampleService (exampleStaged "")).FlashCalls
        (fixedClient (Except.ok ([] ++ [remote "x.go" 3 (bodyPrefix ++ "\nbug")])) accept)
        inOrder (World.start ())))
      (creates ((exampleService (exampleStaged "")).FlashCalls
        (fixedClient (Except.ok []) accept) { run := [2, 1], done := [] } (World.start ()))) :=
  (IsPosted_mono [] [remote "x.go" 3 (bodyPrefix ++ "\nbug")]
    { Path := "x.go", LnumDiff := 3, Body := "bug", ToolName := "" }
    (exampleService (exampleStaged "")) (fixedClient (Except.ok []) accept)
    (fixedClient (Except.ok ([] ++ [remote "x.go" 3 (bodyPrefix ++ "\nbug")])) accept)
    { run := [2, 1], done := [] } inOrder (World.start ()) (World.start ())).2 rfl (Or.inl rfl)

/-! ## Diff: theorems -/

/-- C15 (counterexample): the metadata read succeeds with base `base0`, and `git` writes
four bytes to its standard output and then fails; `Diff` returns those four bytes
together with the error, so a partial diff is returned on failure of the diff process. -/
theorem Diff_partial_output_counterexample :
    ((exampleService []).Diff (fixedDiffClient (Except.ok (pullRequestAt "base0")) brokenGit)
      (DiffWorld.start ())).2 =
      DiffResult.returned [100, 105, 102, 102] (some "signal: killed") := by
  decide

/-- C15 (amended): if the metadata read fails with `e`, `Diff` returns `e` with no bytes
and runs no command; if it succeeds with base SHA `b`, `Diff` runs the one command `git`
with arguments `diff`, `--find-renames`, `b` and the head SHA, and returns exactly the
pair of bytes and error that the command's `Output` returns. -/
theorem Diff_spec {σ : Type} (g : GitHubPullRequest) (env : DiffClient σ) (w : DiffWorld σ) :
    (∀ e, (env.Get w.host g.owner g.repo g.pr).2 = Except.error e →
      (g.Diff env w).2 = DiffResult.returned [] (some e) ∧
      commands (g.DiffCalls env w) = []) ∧
    (∀ pr b, (env.Get w.host g.owner g.repo g.pr).2 = Except.ok pr →
      pr.Base = some { SHA := some b } →
      (g.Diff env w).2 =
        DiffResult.returned
          (env.Output (env.Get w.host g.owner g.repo g.pr).1 "git"
            ["diff", "--find-renames", b, g.sha]).2.1
          (env.Output (env.Get w.host g.owner g.repo g.pr).1 "git"
            ["diff", "--find-renames", b, g.sha]).2.2 ∧
      commands (g.DiffCalls env w) = [("git", ["diff", "--find-renames", b, g.sha])]) := by
  constructor
  · intro e hread
    rcases hg : env.Get w.host g.owner g.repo g.pr with ⟨h, r⟩
    rw [hg] at hread
    simp only at hread
    subst hread
    simp [GitHubPullRequest.DiffCalls, GitHubPullRequest.Diff, DiffClient.get, hg, errorOf,
      commands]
  · intro pr b hread hbase
    rcases hg : env.Get w.host g.owner g.repo g.pr with ⟨h, r⟩
    rw [hg] at hread
    simp only at hread
    subst hread
    rcases ho : env.Output h "git" ["diff", "--find-renames", b, g.sha] with ⟨h2, bytes, err⟩
    simp [GitHubPullRequest.DiffCalls, GitHubPullRequest.Diff, DiffClient.get,
      DiffClient.output, hg, ho, hbase, errorOf, commands]

/-- C15 (witness): a failing metadata read, and a successful one followed by a `git`
that writes nothing further and succeeds. -/
theorem Diff_spec_witness :
    ((exampleService []).Diff (fixedDiffClient (Except.error "boom") brokenGit)
        (DiffWorld.start ())).2 = DiffResult.returned [] (some "boom") ∧
    commands ((exampleService []).DiffCalls
        (fixedDiffClient (Except.ok (pullRequestAt "base1")) brokenGit) (DiffWorld.start ())) =
      [("git", ["diff", "--find-renames", "base1", "abc"])] :=
  ⟨((Diff_spec (exampleService []) (fixedDiffClient (Except.error "boom") brokenGit)
      (DiffWorld.start ())).1 "boom" rfl).1,
   ((Diff_spec (exampleService [])
      (fixedDiffClient (Except.ok (pullRequestAt "base1")) brokenGit)
      (DiffWorld.start ())).2 (pullRequestAt "base1") "base1" rfl rfl).2⟩

end Reviewdog
